import Mathlib

/-!
# Verification of the PathDesigner CAM core

A shallow embedding, over exact rationals, of the toolpath-generation,
nesting and placement-validation code of the `pathdesigner` backend
(`backend/nodes/toolpath_gen.py`, `drill_toolpath.py`, `nesting.py`,
`operation_detector.py`, `contour_extract.py`, `backend/main.py`),
together with proofs of the behavioural properties stated in the design
document.

Python floats are modelled by `ℚ`.  Calls into external libraries that
compute with irrational numbers (`math.hypot`, `math.cos`/`sin`, and the
`shapely` polygon library) are modelled as explicit function parameters,
so every embedded definition stays executable and the control flow and
all exact arithmetic are taken verbatim from the source.
-/

namespace PathDesigner

/-- A 2D point `[x, y]`. -/
abbrev Pt := ℚ × ℚ

/-- `PENETRATION_MARGIN = 0.3` (toolpath_gen.py / drill_toolpath.py). -/
def PENETRATION_MARGIN : ℚ := 3 / 10

/-- Schema `TabSettings` (schemas.py): tab config of `MachiningSettings`. -/
structure TabSettings where
  enabled : Bool
  height : ℚ
  width : ℚ
  count : ℤ
  deriving DecidableEq, Repr

/-- Schema `TabSegment` (schemas.py): an index range of a pass path lifted
to `z_tab`. -/
structure TabSegment where
  start_index : ℕ
  end_index : ℕ
  z_tab : ℚ
  deriving DecidableEq, Repr

/-- Schema `ToolpathPass` (schemas.py): one constant-Z traversal. -/
structure ToolpathPass where
  pass_number : ℕ
  z_depth : ℚ
  path : List Pt
  tabs : List TabSegment
  deriving DecidableEq, Repr, Inhabited

/-- `_tab_z` (toolpath_gen.py): tab top Z rises from the cutting depth. -/
def _tab_z (tab_height : ℚ) (z_depth : ℚ) : ℚ :=
  z_depth + tab_height

/-- `_distance_to_index` (toolpath_gen.py): first index whose cumulative
distance reaches `target`, else the last index. -/
def _distance_to_index (distances : List ℚ) (target : ℚ) : ℕ :=
  match distances.findIdx? (fun d => target ≤ d) with
  | some i => i
  | none => distances.length - 1

/-- The cumulative-distance list built at the top of `_compute_tabs`:
`distances = [0.0]` followed by partial sums of the segment lengths.
`hyp` stands for `math.hypot`. -/
def cumDistances (hyp : ℚ → ℚ → ℚ) (coords : List Pt) : List ℚ :=
  ((coords.zip (coords.drop 1)).map
      (fun cc => hyp (cc.2.1 - cc.1.1) (cc.2.2 - cc.1.2))).scanl (· + ·) 0

/-- `total_length = distances[-1]` in `_compute_tabs`. -/
def totalLength (hyp : ℚ → ℚ → ℚ) (coords : List Pt) : ℚ :=
  (cumDistances hyp coords).getLastD 0

/-- `_compute_tabs` (toolpath_gen.py): place `count` tabs at equal
intervals of the cumulative perimeter, each a centered window of width
`width`, returned as index ranges. -/
def _compute_tabs (hyp : ℚ → ℚ → ℚ) (coords : List Pt)
    (tabs_settings : TabSettings) (z_depth : ℚ) : List TabSegment :=
  let n_points := coords.length
  if n_points < 2 ∨ tabs_settings.count ≤ 0 then []
  else
    let distances := cumDistances hyp coords
    let total_length := distances.getLastD 0
    if total_length ≤ 0 then []
    else
      let tab_spacing := total_length / tabs_settings.count
      let tab_half_width := tabs_settings.width / 2
      let z_tab := _tab_z tabs_settings.height z_depth
      (List.range tabs_settings.count.toNat).map (fun t : ℕ =>
        let center_dist := tab_spacing * ((t : ℚ) + 1 / 2)
        let start_dist := center_dist - tab_half_width
        let end_dist := center_dist + tab_half_width
        let start_idx := _distance_to_index distances (max 0 start_dist)
        let end_idx := _distance_to_index distances (min total_length end_dist)
        let end_idx' := if end_idx ≤ start_idx
          then min (start_idx + 1) (n_points - 1) else end_idx
        { start_index := start_idx, end_index := end_idx', z_tab := z_tab })

/-- `_compute_passes` (toolpath_gen.py): `ceil(total_depth/depth_per_pass)`
Z step-down passes, the final one at `-PENETRATION_MARGIN` and carrying
the tabs when enabled. -/
def _compute_passes (hyp : ℚ → ℚ → ℚ) (coords : List Pt)
    (depth_per_pass : ℚ) (total_depth : ℚ)
    (tabs_settings : TabSettings) : List ToolpathPass :=
  let num_passes := ⌈total_depth / depth_per_pass⌉.toNat
  (List.range num_passes).map (fun i =>
    let pass_number := i + 1
    let is_final := pass_number = num_passes
    let z_depth := if is_final then -PENETRATION_MARGIN
      else total_depth - pass_number * depth_per_pass
    let tabs := if is_final ∧ tabs_settings.enabled
      then _compute_tabs hyp coords tabs_settings z_depth else []
    { pass_number := pass_number, z_depth := z_depth,
      path := coords, tabs := tabs })

/-- `generate_drill_toolpath` (drill_toolpath.py): peck cycle of
`ceil(total_depth/depth_per_peck)` single-point passes, the final one
`PENETRATION_MARGIN` past the material bottom. -/
def generate_drill_toolpath (center : Pt) (total_depth : ℚ)
    (depth_per_peck : ℚ) : List ToolpathPass :=
  let num_pecks := ⌈total_depth / depth_per_peck⌉.toNat
  (List.range num_pecks).map (fun i =>
    let pass_number := i + 1
    let is_final := pass_number = num_pecks
    let z_depth := if is_final then -(total_depth + PENETRATION_MARGIN)
      else -(pass_number * depth_per_peck)
    { pass_number := pass_number, z_depth := z_depth,
      path := [center], tabs := [] })

/-! ## Arithmetic facts about the pass count -/

/-- With positive depths, the pass count `⌈D/p⌉` is at least one. -/
lemma one_le_ceil_div {D p : ℚ} (hp : 0 < p) (hD : 0 < D) :
    1 ≤ ⌈D / p⌉ := by
  have : (0 : ℚ) < D / p := div_pos hD hp
  exact Int.ceil_pos.mpr this

/-- The penultimate cutting level is still above the top of the
material bottom: `(⌈D/p⌉ - 1) * p < D`. -/
lemma pred_ceil_mul_lt {D p : ℚ} (hp : 0 < p) :
    ((⌈D / p⌉ : ℚ) - 1) * p < D := by
  have h1 : (⌈D / p⌉ : ℚ) < D / p + 1 := Int.ceil_lt_add_one (D / p)
  have h2 : (⌈D / p⌉ : ℚ) - 1 < D / p := by linarith
  have h3 := (mul_lt_mul_of_pos_right h2 hp)
  rwa [div_mul_cancel₀ D (ne_of_gt hp)] at h3

lemma toNat_ceil_cast {D p : ℚ} (hp : 0 < p) (hD : 0 < D) :
    ((⌈D / p⌉.toNat : ℤ) : ℚ) = ((⌈D / p⌉ : ℤ) : ℚ) := by
  have h := one_le_ceil_div hp hD
  exact_mod_cast congrArg (fun z : ℤ => (z : ℚ))
    (Int.toNat_of_nonneg (by linarith))

/-- The elements of a `_compute_passes` result, by index. -/
lemma compute_passes_getD (hyp : ℚ → ℚ → ℚ) (coords : List Pt)
    (p D : ℚ) (ts : TabSettings) (i : ℕ) (h : i < ⌈D / p⌉.toNat) :
    ((_compute_passes hyp coords p D ts).getD i default).z_depth =
      if i + 1 = ⌈D / p⌉.toNat then -PENETRATION_MARGIN
      else D - ((i : ℚ) + 1) * p := by
  unfold _compute_passes
  rw [List.getD_eq_getElem?_getD, List.getElem?_map]
  simp only [List.getElem?_range, h, if_pos, Option.map_some', Option.getD_some]
  by_cases hfin : i + 1 = ⌈D / p⌉.toNat
  · rw [if_pos hfin, if_pos hfin]
  · rw [if_neg hfin, if_neg hfin]
    push_cast
    ring

lemma compute_passes_length (hyp : ℚ → ℚ → ℚ) (coords : List Pt)
    (p D : ℚ) (ts : TabSettings) :
    (_compute_passes hyp coords p D ts).length = ⌈D / p⌉.toNat := by
  simp [_compute_passes]

/-- `getLastD` is `getD` at the last position. -/
lemma getLastD_eq_getD {α : Type} [Inhabited α] (l : List α) :
    l.getLastD default = l.getD (l.length - 1) default := by
  cases l with
  | nil => rfl
  | cons a t =>
      rw [List.getLastD_eq_getLast?, List.getLast?_eq_getElem?]
      simp [List.getD]

/-- The strict step-down of the Z levels of `_compute_passes`:
pass `j` cuts strictly deeper than pass `i` for `i < j`. -/
lemma stepDownZ_strict {p D : ℚ} (hp : 0 < p) (hD : 0 < D)
    (i j : ℕ) (hij : i < j) (hj : j < ⌈D / p⌉.toNat) :
    (if j + 1 = ⌈D / p⌉.toNat then -PENETRATION_MARGIN
      else D - ((j : ℚ) + 1) * p) <
    (if i + 1 = ⌈D / p⌉.toNat then -PENETRATION_MARGIN
      else D - ((i : ℚ) + 1) * p) := by
  set n := ⌈D / p⌉.toNat with hn
  have hcast : ((n : ℚ)) = ((⌈D / p⌉ : ℤ) : ℚ) := by
    have h1 := one_le_ceil_div hp hD
    rw [hn]
    exact_mod_cast congrArg (fun z : ℤ => (z : ℚ)) (Int.toNat_of_nonneg (by linarith))
  have hlast : ((n : ℚ) - 1) * p < D := by
    rw [hcast]; exact pred_ceil_mul_lt hp
  have hi1 : i + 1 ≠ n := by omega
  rw [if_neg hi1]
  have hPM : (0 : ℚ) < PENETRATION_MARGIN := by norm_num [PENETRATION_MARGIN]
  by_cases hjn : j + 1 = n
  · rw [if_pos hjn]
    have hi2 : i + 2 ≤ n := by omega
    have hi2' : (i : ℚ) + 2 ≤ (n : ℚ) := by exact_mod_cast hi2
    have h3 : ((i : ℚ) + 1) * p ≤ ((n : ℚ) - 1) * p :=
      mul_le_mul_of_nonneg_right (by linarith) hp.le
    linarith
  · rw [if_neg hjn]
    have hij' : (i : ℚ) + 1 < (j : ℚ) + 1 := by exact_mod_cast Nat.succ_lt_succ hij
    have := mul_lt_mul_of_pos_right hij' hp
    linarith

/-- The step-down invariant of spec §8, stated of a pass list:
`ceil(total_depth/depth_per_pass)` passes; non-final pass `i` (1-based)
at `z = total_depth - i·depth_per_pass`; final pass at
`-PENETRATION_MARGIN`; Z levels strictly decreasing. -/
def stepDownSpec (ps : List ToolpathPass) (depth_per_pass total_depth : ℚ) : Prop :=
  ps.length = ⌈total_depth / depth_per_pass⌉.toNat
  ∧ (∀ i, i + 1 < ps.length →
      (ps.getD i default).z_depth = total_depth - ((i : ℚ) + 1) * depth_per_pass)
  ∧ (ps.getLastD default).z_depth = -PENETRATION_MARGIN
  ∧ ps.Pairwise (fun a b => b.z_depth < a.z_depth)

/-- C1: for every contour path, positive `depth_per_pass` and positive
`total_depth`, `_compute_passes` produces exactly
`ceil(total_depth/depth_per_pass)` passes; each non-final pass `i`
(1-based) has `z_depth = total_depth - i*depth_per_pass`, the final pass
has `z_depth = -PENETRATION_MARGIN`, and the `z_depth` sequence is
strictly decreasing. -/
theorem compute_passes_step_down (hyp : ℚ → ℚ → ℚ) (coords : List Pt)
    (depth_per_pass total_depth : ℚ) (tabs_settings : TabSettings)
    (hp : 0 < depth_per_pass) (hD : 0 < total_depth) :
    stepDownSpec (_compute_passes hyp coords depth_per_pass total_depth tabs_settings)
      depth_per_pass total_depth := by
  set n := ⌈total_depth / depth_per_pass⌉.toNat with hn
  have hlen := compute_passes_length hyp coords depth_per_pass total_depth tabs_settings
  have hn1 : 1 ≤ n := by
    have := one_le_ceil_div hp hD
    omega
  refine ⟨hlen, ?_, ?_, ?_⟩
  · intro i hi
    rw [hlen] at hi
    rw [compute_passes_getD hyp coords depth_per_pass total_depth tabs_settings i (by omega),
      if_neg (by omega)]
  · rw [getLastD_eq_getD, hlen,
      compute_passes_getD hyp coords depth_per_pass total_depth tabs_settings (n - 1) (by omega),
      if_pos (by omega)]
  · rw [List.pairwise_iff_getElem]
    intro i j hi hj hij
    have hi2 : i < n := by rw [hlen] at hi; exact hi
    have hj2 : j < n := by rw [hlen] at hj; exact hj
    have hzi : (_compute_passes hyp coords depth_per_pass total_depth
        tabs_settings)[i] =
        (_compute_passes hyp coords depth_per_pass total_depth tabs_settings).getD i default := by
      rw [List.getD_eq_getElem?_getD, List.getElem?_eq_getElem hi]
      rfl
    have hzj : (_compute_passes hyp coords depth_per_pass total_depth
        tabs_settings)[j] =
        (_compute_passes hyp coords depth_per_pass total_depth tabs_settings).getD j default := by
      rw [List.getD_eq_getElem?_getD, List.getElem?_eq_getElem hj]
      rfl
    rw [hzi, hzj,
      compute_passes_getD hyp coords depth_per_pass total_depth tabs_settings i hi2,
      compute_passes_getD hyp coords depth_per_pass total_depth tabs_settings j hj2]
    exact stepDownZ_strict hp hD i j hij hj2

/-- Witness for C1 at `depth_per_pass = 6`, `total_depth = 18`. -/
theorem compute_passes_step_down_witness :
    (0 : ℚ) < 6 ∧ (0 : ℚ) < 18 ∧
    stepDownSpec
      (_compute_passes (fun _ _ => 0) [((0 : ℚ), (0 : ℚ)), ((1 : ℚ), (0 : ℚ))]
        6 18 ⟨false, 0, 0, 0⟩) 6 18 :=
  ⟨by norm_num, by norm_num,
    compute_passes_step_down _ _ _ _ _ (by norm_num) (by norm_num)⟩

/-- The Z level of a `generate_drill_toolpath` pass, by index. -/
lemma drill_toolpath_getD (center : Pt) (D p : ℚ) (i : ℕ)
    (h : i < ⌈D / p⌉.toNat) :
    ((generate_drill_toolpath center D p).getD i default).z_depth =
      if i + 1 = ⌈D / p⌉.toNat then -(D + PENETRATION_MARGIN)
      else -(((i : ℚ) + 1) * p) := by
  unfold generate_drill_toolpath
  rw [List.getD_eq_getElem?_getD, List.getElem?_map]
  simp only [List.getElem?_range, h, if_pos, Option.map_some', Option.getD_some]
  by_cases hfin : i + 1 = ⌈D / p⌉.toNat
  · rw [if_pos hfin, if_pos hfin]
  · rw [if_neg hfin, if_neg hfin]
    push_cast
    ring

lemma drill_toolpath_length (center : Pt) (D p : ℚ) :
    (generate_drill_toolpath center D p).length = ⌈D / p⌉.toNat := by
  simp [generate_drill_toolpath]

/-- The peck depths of `generate_drill_toolpath` strictly increase. -/
lemma drill_depth_strict {p D : ℚ} (hp : 0 < p) (hD : 0 < D)
    (i j : ℕ) (hij : i < j) (hj : j < ⌈D / p⌉.toNat) :
    -(if i + 1 = ⌈D / p⌉.toNat then -(D + PENETRATION_MARGIN)
        else -(((i : ℚ) + 1) * p)) <
    -(if j + 1 = ⌈D / p⌉.toNat then -(D + PENETRATION_MARGIN)
        else -(((j : ℚ) + 1) * p)) := by
  set n := ⌈D / p⌉.toNat with hn
  have hcast : ((n : ℚ)) = ((⌈D / p⌉ : ℤ) : ℚ) := by
    have h1 := one_le_ceil_div hp hD
    rw [hn]
    exact_mod_cast congrArg (fun z : ℤ => (z : ℚ)) (Int.toNat_of_nonneg (by linarith))
  have hlast : ((n : ℚ) - 1) * p < D := by
    rw [hcast]; exact pred_ceil_mul_lt hp
  have hi1 : i + 1 ≠ n := by omega
  rw [if_neg hi1]
  have hPM : (0 : ℚ) < PENETRATION_MARGIN := by norm_num [PENETRATION_MARGIN]
  by_cases hjn : j + 1 = n
  · rw [if_pos hjn]
    have hi2 : (i : ℚ) + 2 ≤ (n : ℚ) := by exact_mod_cast (by omega : i + 2 ≤ n)
    have h3 : ((i : ℚ) + 1) * p ≤ ((n : ℚ) - 1) * p :=
      mul_le_mul_of_nonneg_right (by linarith) hp.le
    linarith
  · rw [if_neg hjn]
    have hij' : (i : ℚ) + 1 < (j : ℚ) + 1 := by exact_mod_cast Nat.succ_lt_succ hij
    have := mul_lt_mul_of_pos_right hij' hp
    linarith

/-- The drill invariant of spec §4.2/§8, stated of a pass list:
`ceil(total_depth/depth_per_peck)` single-point passes at the drill
center, never tabbed, with strictly increasing cutting depth `-z`, the
final peck `PENETRATION_MARGIN` past the material bottom. -/
def drillPeckSpec (ps : List ToolpathPass) (center : Pt)
    (depth_per_peck total_depth : ℚ) : Prop :=
  ps.length = ⌈total_depth / depth_per_peck⌉.toNat
  ∧ (∀ pa ∈ ps, pa.path = [center] ∧ pa.tabs = [])
  ∧ ps.Pairwise (fun a b => -a.z_depth < -b.z_depth)
  ∧ (ps.getLastD default).z_depth = -(total_depth + PENETRATION_MARGIN)

/-- C4: for every drill center, positive `total_depth` and positive
`depth_per_peck`, `generate_drill_toolpath` returns exactly
`ceil(total_depth/depth_per_peck)` passes, each a single-point path at
the drill center with no tabs, with strictly increasing pass depths, and
the final peck extending `PENETRATION_MARGIN` past the material bottom. -/
theorem generate_drill_toolpath_peck_cycle (center : Pt)
    (total_depth depth_per_peck : ℚ)
    (hp : 0 < depth_per_peck) (hD : 0 < total_depth) :
    drillPeckSpec (generate_drill_toolpath center total_depth depth_per_peck)
      center depth_per_peck total_depth := by
  set n := ⌈total_depth / depth_per_peck⌉.toNat with hn
  have hlen := drill_toolpath_length center total_depth depth_per_peck
  have hn1 : 1 ≤ n := by
    have := one_le_ceil_div hp hD
    omega
  refine ⟨hlen, ?_, ?_, ?_⟩
  · intro pa hpa
    simp only [generate_drill_toolpath, List.mem_map, List.mem_range] at hpa
    obtain ⟨i, _, rfl⟩ := hpa
    exact ⟨rfl, rfl⟩
  · rw [List.pairwise_iff_getElem]
    intro i j hi hj hij
    have hi2 : i < n := by rw [hlen] at hi; exact hi
    have hj2 : j < n := by rw [hlen] at hj; exact hj
    have hzi : (generate_drill_toolpath center total_depth
        depth_per_peck)[i] =
        (generate_drill_toolpath center total_depth depth_per_peck).getD i default := by
      rw [List.getD_eq_getElem?_getD, List.getElem?_eq_getElem hi]
      rfl
    have hzj : (generate_drill_toolpath center total_depth
        depth_per_peck)[j] =
        (generate_drill_toolpath center total_depth depth_per_peck).getD j default := by
      rw [List.getD_eq_getElem?_getD, List.getElem?_eq_getElem hj]
      rfl
    rw [hzi, hzj, drill_toolpath_getD center total_depth depth_per_peck i hi2,
      drill_toolpath_getD center total_depth depth_per_peck j hj2]
    exact drill_depth_strict hp hD i j hij hj2
  · rw [getLastD_eq_getD, hlen,
      drill_toolpath_getD center total_depth depth_per_peck (n - 1) (by omega),
      if_pos (by omega)]

/-- Witness for C4 at `total_depth = 10`, `depth_per_peck = 6`. -/
theorem generate_drill_toolpath_peck_cycle_witness :
    (0 : ℚ) < 6 ∧ (0 : ℚ) < 10 ∧
    drillPeckSpec (generate_drill_toolpath ((50 : ℚ), (25 : ℚ)) 10 6)
      ((50 : ℚ), (25 : ℚ)) 6 10 :=
  ⟨by norm_num, by norm_num,
    generate_drill_toolpath_peck_cycle _ _ _ (by norm_num) (by norm_num)⟩

/-! ## Tabs: index bounds and containment -/

lemma findIdx?_lt_length_add {α : Type} (p : α → Bool) :
    ∀ (l : List α) (s i : ℕ), l.findIdx? p s = some i → i < s + l.length := by
  intro l
  induction l with
  | nil => intro s i h; simp [List.findIdx?_nil] at h
  | cons x xs ih =>
      intro s i h
      rw [List.findIdx?_cons] at h
      by_cases hx : p x = true
      · rw [if_pos hx] at h
        obtain rfl := Option.some.inj h
        simp
      · rw [if_neg hx] at h
        have := ih (s + 1) i h
        simp only [List.length_cons]
        omega

/-- `_distance_to_index` never leaves the index range of `distances`. -/
lemma distance_to_index_le (distances : List ℚ) (target : ℚ) :
    _distance_to_index distances target ≤ distances.length - 1 := by
  cases h : distances.findIdx? (fun d => target ≤ d) with
  | none =>
      simp only [_distance_to_index, h]
      exact le_refl _
  | some i =>
      simp only [_distance_to_index, h]
      have := findIdx?_lt_length_add (fun d => target ≤ d) distances 0 i h
      omega

/-- The cumulative-distance list has one entry per path vertex. -/
lemma cumDistances_length (hyp : ℚ → ℚ → ℚ) (coords : List Pt)
    (h : 1 ≤ coords.length) :
    (cumDistances hyp coords).length = coords.length := by
  simp only [cumDistances, List.length_scanl, List.length_map, List.length_zip,
    List.length_drop]
  omega

/-- C9: every `TabSegment` returned by `_compute_tabs` satisfies
`start_index ≤ end_index ≤ len(coords) - 1`, so substituting the tab Z
for vertices of the index range can never index out of bounds. -/
theorem compute_tabs_index_bounds (hyp : ℚ → ℚ → ℚ) (coords : List Pt)
    (tabs_settings : TabSettings) (z_depth : ℚ) :
    ∀ seg ∈ _compute_tabs hyp coords tabs_settings z_depth,
      seg.start_index ≤ seg.end_index ∧ seg.end_index ≤ coords.length - 1 := by
  intro seg hseg
  unfold _compute_tabs at hseg
  by_cases hguard : coords.length < 2 ∨ tabs_settings.count ≤ 0
  · rw [if_pos hguard] at hseg
    simp at hseg
  · rw [if_neg hguard] at hseg
    push_neg at hguard
    obtain ⟨hlen2, _⟩ := hguard
    by_cases hL : (cumDistances hyp coords).getLastD 0 ≤ 0
    · rw [if_pos hL] at hseg
      simp at hseg
    · rw [if_neg hL] at hseg
      simp only [List.mem_map, List.mem_range] at hseg
      obtain ⟨t, _, rfl⟩ := hseg
      have hdl : (cumDistances hyp coords).length = coords.length :=
        cumDistances_length hyp coords (by omega)
      have hs := distance_to_index_le (cumDistances hyp coords)
        (max 0 ((cumDistances hyp coords).getLastD 0 / tabs_settings.count *
          ((t : ℚ) + 1 / 2) - tabs_settings.width / 2))
      have he := distance_to_index_le (cumDistances hyp coords)
        (min ((cumDistances hyp coords).getLastD 0)
          ((cumDistances hyp coords).getLastD 0 / tabs_settings.count *
            ((t : ℚ) + 1 / 2) + tabs_settings.width / 2))
      rw [hdl] at hs he
      dsimp only
      constructor
      · split <;> omega
      · split <;> omega

/-- Concrete evaluation of the cumulative distances of the 10×10 square
under a constant segment-length function. -/
lemma cumDistances_square_eval :
    cumDistances (fun _ _ => 10)
      [((0 : ℚ), (0 : ℚ)), (10, 0), (10, 10), (0, 10), (0, 0)] =
      [0, 10, 20, 30, 40] := by
  simp [cumDistances, List.scanl]
  norm_num

/-- Concrete evaluation of `_compute_tabs` on the 10×10 square with a
constant segment-length function: four tabs. -/
lemma compute_tabs_square_eval :
    _compute_tabs (fun _ _ => 10)
      [((0 : ℚ), (0 : ℚ)), (10, 0), (10, 10), (0, 10), (0, 0)]
      ⟨true, 8, 5, 4⟩ (-(3 / 10)) =
    [⟨1, 2, 77 / 10⟩, ⟨2, 3, 77 / 10⟩, ⟨3, 4, 77 / 10⟩, ⟨4, 4, 77 / 10⟩] := by
  have hdist := cumDistances_square_eval
  have hlast : ([0, 10, 20, 30, 40] : List ℚ).getLastD 0 = 40 := rfl
  simp only [_compute_tabs, hdist, hlast]
  rw [if_neg (by norm_num), if_neg (by norm_num)]
  rw [show ((4 : ℤ)).toNat = 4 from rfl, show List.range 4 = [0, 1, 2, 3] by decide]
  simp only [List.map_cons, List.map_nil]
  norm_num [_distance_to_index, _tab_z, List.findIdx?, max_def, min_def]

/-- Witness for C9: the 10×10 square, four tabs. -/
theorem compute_tabs_index_bounds_witness :
    (⟨1, 2, 77 / 10⟩ : TabSegment) ∈
      _compute_tabs (fun _ _ => 10)
        [((0 : ℚ), (0 : ℚ)), (10, 0), (10, 10), (0, 10), (0, 0)]
        ⟨true, 8, 5, 4⟩ (-(3 / 10)) ∧
    (1 : ℕ) ≤ 2 ∧ (2 : ℕ) ≤
      [((0 : ℚ), (0 : ℚ)), (10, 0), (10, 10), (0, 10), (0, 0)].length - 1 :=
  ⟨by rw [compute_tabs_square_eval]; simp,
    compute_tabs_index_bounds (fun _ _ => 10)
      [((0 : ℚ), (0 : ℚ)), (10, 0), (10, 10), (0, 10), (0, 0)]
      ⟨true, 8, 5, 4⟩ (-(3 / 10)) ⟨1, 2, 77 / 10⟩
      (by rw [compute_tabs_square_eval]; simp)⟩

/-- Tabs are attached only to the final pass: every non-final pass of
`_compute_passes` carries none. -/
lemma compute_passes_tabs_nonfinal (hyp : ℚ → ℚ → ℚ) (coords : List Pt)
    (p D : ℚ) (ts : TabSettings) (i : ℕ) (h : i + 1 < ⌈D / p⌉.toNat) :
    ((_compute_passes hyp coords p D ts).getD i default).tabs = [] := by
  unfold _compute_passes
  rw [List.getD_eq_getElem?_getD, List.getElem?_map]
  simp only [List.getElem?_range, (show i < ⌈D / p⌉.toNat by omega), if_pos,
    Option.map_some', Option.getD_some]
  rw [if_neg (fun hc => absurd hc.1 (by omega))]

/-- The final pass carries exactly the tabs of `_compute_tabs` at
`-PENETRATION_MARGIN` when enabled. -/
lemma compute_passes_tabs_final (hyp : ℚ → ℚ → ℚ) (coords : List Pt)
    (p D : ℚ) (ts : TabSettings) (h1 : 1 ≤ ⌈D / p⌉.toNat) :
    ((_compute_passes hyp coords p D ts).getLastD default).tabs =
      if ts.enabled = true then _compute_tabs hyp coords ts (-PENETRATION_MARGIN)
      else [] := by
  rw [getLastD_eq_getD, compute_passes_length]
  unfold _compute_passes
  rw [List.getD_eq_getElem?_getD, List.getElem?_map]
  simp only [List.getElem?_range, (show ⌈D / p⌉.toNat - 1 < ⌈D / p⌉.toNat by omega),
    if_pos, Option.map_some', Option.getD_some]
  have hfin : ⌈D / p⌉.toNat - 1 + 1 = ⌈D / p⌉.toNat := by omega
  rw [if_pos hfin]
  by_cases hen : ts.enabled = true
  · rw [if_pos ⟨hfin, hen⟩, if_pos hen]
  · rw [if_neg (fun hc => hen hc.2), if_neg hen]

/-- When the path is nondegenerate, `_compute_tabs` returns exactly
`count` segments. -/
lemma compute_tabs_length (hyp : ℚ → ℚ → ℚ) (coords : List Pt)
    (ts : TabSettings) (z : ℚ) (hn2 : 2 ≤ coords.length)
    (hL : 0 < totalLength hyp coords) :
    (_compute_tabs hyp coords ts z).length = ts.count.toNat := by
  by_cases hc : ts.count ≤ 0
  · unfold _compute_tabs
    rw [if_pos (Or.inr hc)]
    simp [Int.toNat_of_nonpos hc]
  · unfold _compute_tabs
    rw [if_neg (by push_neg; exact ⟨by omega, by omega⟩)]
    rw [if_neg (by unfold totalLength at hL; exact not_le.mpr hL)]
    simp

/-- Every tab segment is lifted to `z_depth + height`. -/
lemma compute_tabs_ztab (hyp : ℚ → ℚ → ℚ) (coords : List Pt)
    (ts : TabSettings) (z : ℚ) :
    ∀ seg ∈ _compute_tabs hyp coords ts z, seg.z_tab = z + ts.height := by
  intro seg hseg
  unfold _compute_tabs at hseg
  by_cases hguard : coords.length < 2 ∨ ts.count ≤ 0
  · rw [if_pos hguard] at hseg
    simp at hseg
  · rw [if_neg hguard] at hseg
    by_cases hL : (cumDistances hyp coords).getLastD 0 ≤ 0
    · rw [if_pos hL] at hseg
      simp at hseg
    · rw [if_neg hL] at hseg
      simp only [List.mem_map, List.mem_range] at hseg
      obtain ⟨t, _, rfl⟩ := hseg
      rfl

/-- The tab-containment property of spec §8, stated of a pass list:
only the final pass carries tabs, there are exactly `count` of them, and
each is lifted to `z_depth + height`, strictly above the cutting Z. -/
def tabContainmentSpec (ps : List ToolpathPass) (ts : TabSettings) : Prop :=
  (∀ i, i + 1 < ps.length → (ps.getD i default).tabs = [])
  ∧ (ps.getLastD default).tabs.length = ts.count.toNat
  ∧ ∀ seg ∈ (ps.getLastD default).tabs,
      seg.z_tab = (ps.getLastD default).z_depth + ts.height
      ∧ (ps.getLastD default).z_depth < seg.z_tab

/-- C2 (amended): with tab settings enabled, every non-final pass of
`_compute_passes` carries zero TabSegments and — provided the pass path
has at least two points and strictly positive cumulative length, and the
tab height is positive — the final pass carries exactly `count`
TabSegments, each with `z_tab = z_depth + height` strictly above the
pass's cutting `z_depth`.  (The original claim fails on degenerate
paths: see the counterexample.) -/
theorem compute_passes_tab_containment (hyp : ℚ → ℚ → ℚ) (coords : List Pt)
    (depth_per_pass total_depth : ℚ) (ts : TabSettings)
    (hp : 0 < depth_per_pass) (hD : 0 < total_depth)
    (hen : ts.enabled = true) (hn2 : 2 ≤ coords.length)
    (hL : 0 < totalLength hyp coords) (hh : 0 < ts.height) :
    tabContainmentSpec (_compute_passes hyp coords depth_per_pass total_depth ts) ts := by
  have h1 : 1 ≤ ⌈total_depth / depth_per_pass⌉.toNat := by
    have := one_le_ceil_div hp hD
    omega
  have hfin := compute_passes_tabs_final hyp coords depth_per_pass total_depth ts h1
  rw [if_pos hen] at hfin
  have hz : ((_compute_passes hyp coords depth_per_pass total_depth
      ts).getLastD default).z_depth = -PENETRATION_MARGIN := by
    rw [getLastD_eq_getD, compute_passes_length,
      compute_passes_getD hyp coords depth_per_pass total_depth ts _ (by omega),
      if_pos (by omega)]
  refine ⟨?_, ?_, ?_⟩
  · intro i hi
    rw [compute_passes_length] at hi
    exact compute_passes_tabs_nonfinal hyp coords depth_per_pass total_depth ts i hi
  · rw [hfin]
    exact compute_tabs_length hyp coords ts _ hn2 hL
  · intro seg hseg
    rw [hfin] at hseg
    have hzt := compute_tabs_ztab hyp coords ts (-PENETRATION_MARGIN) seg hseg
    rw [hz]
    exact ⟨hzt, by rw [hzt]; linarith⟩

/-- Counterexample to C2 as stated: a one-point contour path with tabs
enabled and `count = 1` still yields a final pass with zero tabs,
because `_compute_tabs` bails out on paths with fewer than two points. -/
theorem compute_passes_tab_counterexample :
    (⟨true, 8, 5, 1⟩ : TabSettings).enabled = true ∧
    (⟨true, 8, 5, 1⟩ : TabSettings).count = 1 ∧
    ((_compute_passes (fun _ _ => 0) [((0 : ℚ), (0 : ℚ))] 6 6
        ⟨true, 8, 5, 1⟩).getLastD default).tabs = [] := by
  refine ⟨rfl, rfl, ?_⟩
  have hc : (⌈(6 : ℚ) / 6⌉ : ℤ) = 1 := by norm_num [Int.ceil_eq_iff]
  have hn : (⌈(6 : ℚ) / 6⌉ : ℤ).toNat = 1 := by rw [hc]; rfl
  simp only [_compute_passes, hn]
  rw [show List.range 1 = [0] from rfl]
  simp [_compute_tabs]

/-- Witness for the amended C2 on the 10×10 square. -/
theorem compute_passes_tab_containment_witness :
    (0 : ℚ) < 6 ∧ (0 : ℚ) < 18 ∧
    (⟨true, 8, 5, 4⟩ : TabSettings).enabled = true ∧
    2 ≤ ([((0 : ℚ), (0 : ℚ)), (10, 0), (10, 10), (0, 10), (0, 0)] : List Pt).length ∧
    0 < totalLength (fun _ _ => 10)
      [((0 : ℚ), (0 : ℚ)), (10, 0), (10, 10), (0, 10), (0, 0)] ∧
    (0 : ℚ) < (⟨true, 8, 5, 4⟩ : TabSettings).height ∧
    tabContainmentSpec
      (_compute_passes (fun _ _ => 10)
        [((0 : ℚ), (0 : ℚ)), (10, 0), (10, 10), (0, 10), (0, 0)]
        6 18 ⟨true, 8, 5, 4⟩) ⟨true, 8, 5, 4⟩ :=
  ⟨by norm_num, by norm_num, rfl, by norm_num,
    by rw [totalLength, cumDistances_square_eval]; norm_num, by norm_num,
    compute_passes_tab_containment _ _ _ _ _ (by norm_num) (by norm_num) rfl
      (by norm_num) (by rw [totalLength, cumDistances_square_eval]; norm_num)
      (by norm_num)⟩

/-! ## Data model (schemas.py) -/

/-- Schema `Tool` (schemas.py). -/
structure Tool where
  diameter : ℚ
  type : String
  flutes : ℤ
  deriving DecidableEq, Repr

/-- Schema `FeedRate` (schemas.py). -/
structure FeedRate where
  xy : ℚ
  z : ℚ
  deriving DecidableEq, Repr

/-- Schema `MachiningSettings` (schemas.py). -/
structure MachiningSettings where
  operation_type : String
  tool : Tool
  feed_rate : FeedRate
  jog_speed : ℚ
  spindle_speed : ℤ
  depth_per_pass : ℚ
  total_depth : ℚ
  direction : String
  offset_side : String
  tabs : TabSettings
  pocket_pattern : String
  pocket_stepover : ℚ
  depth_per_peck : ℚ
  deriving DecidableEq, Repr

/-- Schema `Contour` (schemas.py): a typed 2D cross-section contour. -/
structure Contour where
  id : String
  type : String
  coords : List Pt
  closed : Bool
  deriving DecidableEq, Repr

/-- Schema `OffsetApplied` (schemas.py). -/
structure OffsetApplied where
  distance : ℚ
  side : String
  deriving DecidableEq, Repr

/-- Schema `OperationGeometry` (schemas.py). -/
structure OperationGeometry where
  contours : List Contour
  offset_applied : OffsetApplied
  depth : ℚ
  deriving DecidableEq, Repr

/-- Schema `DetectedOperation` (schemas.py). -/
structure DetectedOperation where
  operation_id : String
  object_id : String
  operation_type : String
  geometry : OperationGeometry
  suggested_settings : MachiningSettings
  enabled : Bool
  deriving DecidableEq, Repr

/-- Schema `OperationAssignment` (schemas.py). -/
structure OperationAssignment where
  operation_id : String
  material_id : String
  enabled : Bool
  settings : MachiningSettings
  order : ℤ
  group_id : Option String
  deriving DecidableEq, Repr

/-- Schema `SheetMaterial` (schemas.py). -/
structure SheetMaterial where
  material_id : String
  label : String
  width : ℚ
  depth : ℚ
  thickness : ℚ
  x_position : ℚ
  y_position : ℚ
  deriving DecidableEq, Repr

/-- Schema `SheetSettings` (schemas.py). -/
structure SheetSettings where
  materials : List SheetMaterial
  deriving DecidableEq, Repr

/-- Schema `PlacementItem` (schemas.py): physical pose of one object on
one sheet. -/
structure PlacementItem where
  object_id : String
  material_id : String
  sheet_id : String
  x_offset : ℚ
  y_offset : ℚ
  rotation : ℤ
  deriving DecidableEq, Repr

/-- Schema `BoundingBox` (schemas.py). -/
structure BoundingBox where
  x : ℚ
  y : ℚ
  z : ℚ
  deriving DecidableEq, Repr

/-- Schema `Toolpath` (schemas.py). -/
structure Toolpath where
  operation_id : String
  passes : List ToolpathPass
  settings : Option MachiningSettings
  deriving DecidableEq, Repr

/-- Schema `ToolpathGenResult` (schemas.py). -/
structure ToolpathGenResult where
  toolpaths : List Toolpath
  sheet_width : Option ℚ
  sheet_depth : Option ℚ
  deriving DecidableEq, Repr

/-! ## Placement validation (`main.py`, `_validate_placement`)

The four warning strings of the source carry the object id and the
offending numbers; they are modelled as tagged values with the same
data. -/

inductive PlacementWarning where
  | xExceeds (object_id : String) (extent : ℚ) (width : ℚ)
  | yExceeds (object_id : String) (extent : ℚ) (depth : ℚ)
  | xNegative (object_id : String)
  | yNegative (object_id : String)
  deriving DecidableEq, Repr

/-- `_validate_placement` (main.py): bounds check of one placed object
against its sheet.  Reads only the offsets and the unrotated
bounding-box extents. -/
def _validate_placement (placement : PlacementItem) (sheet_mat : SheetMaterial)
    (bb : BoundingBox) : List PlacementWarning :=
  (if sheet_mat.width < placement.x_offset + bb.x
    then [.xExceeds placement.object_id (placement.x_offset + bb.x) sheet_mat.width]
    else [])
  ++ (if sheet_mat.depth < placement.y_offset + bb.y
    then [.yExceeds placement.object_id (placement.y_offset + bb.y) sheet_mat.depth]
    else [])
  ++ (if placement.x_offset < 0 then [.xNegative placement.object_id] else [])
  ++ (if placement.y_offset < 0 then [.yNegative placement.object_id] else [])

/-- C10: the placement bounds check is independent of rotation — two
placements differing only in their rotation get the identical warning
list, because `_validate_placement` compares only the unrotated
bounding-box extents against the sheet. -/
theorem validate_placement_rotation_independent (p : PlacementItem)
    (r₁ r₂ : ℤ) (sheet_mat : SheetMaterial) (bb : BoundingBox) :
    _validate_placement { p with rotation := r₁ } sheet_mat bb =
      _validate_placement { p with rotation := r₂ } sheet_mat bb := rfl

/-! ## Operation detection (`operation_detector.py`) and contour
extraction typing (`contour_extract.py`)

The CAD kernel (solid import, face analysis, cross-sectioning) is an
external collaborator; its per-feature output — the cylindrical-face /
planar-pocket descriptors of `_analyze_features` — is the input here.
Pocket-contour coordinate extraction (`_extract_pocket_contour`, which
needs trigonometry or shapely) is a function parameter returning the
coordinates; the contour `type` it assigns is fixed to `"pocket"` by
both source branches and is kept concrete here. -/

/-- A feature record of `_analyze_features` (operation_detector.py):
`type` is `"cylindrical"` or `"planar_pocket"`. -/
structure Feature where
  type : String
  radius : ℚ
  depth : ℚ
  is_through : Bool
  center_x : ℚ
  center_y : ℚ
  deriving DecidableEq, Repr

/-- `_classify_feature` (operation_detector.py): drill, pocket or
nothing (left for the contour pass). -/
def _classify_feature (feature : Feature) (tool_diameter : ℚ) : Option String :=
  if feature.type = "planar_pocket" then some "pocket"
  else if feature.type ≠ "cylindrical" then none
  else
    let diameter := feature.radius * 2
    if feature.is_through then
      if diameter ≤ tool_diameter * 2 then some "drill" else none
    else some "pocket"

/-- Round to four decimal places (`round(x, 4)`; Python rounds
half-to-even, the claims never hinge on ties). -/
def round4 (x : ℚ) : ℚ := (round (x * 10000) : ℤ) / 10000

/-- `Tool(diameter=6.35, ...)` default. -/
def _DEFAULT_TOOL : Tool := ⟨127 / 20, "endmill", 2⟩

/-- `_DEFAULT_CONTOUR_SETTINGS` (operation_detector.py). -/
def _DEFAULT_CONTOUR_SETTINGS : MachiningSettings :=
  ⟨"contour", _DEFAULT_TOOL, ⟨75, 25⟩, 200, 18000, 6, 18, "climb", "outside",
    ⟨true, 8, 5, 4⟩, "contour-parallel", 1 / 2, 6⟩

/-- `_DEFAULT_POCKET_SETTINGS` (operation_detector.py). -/
def _DEFAULT_POCKET_SETTINGS : MachiningSettings :=
  ⟨"pocket", _DEFAULT_TOOL, ⟨60, 20⟩, 200, 18000, 3, 6, "climb", "none",
    ⟨false, 0, 0, 0⟩, "contour-parallel", 1 / 2, 6⟩

/-- `_DEFAULT_DRILL_SETTINGS` (operation_detector.py). -/
def _DEFAULT_DRILL_SETTINGS : MachiningSettings :=
  ⟨"drill", _DEFAULT_TOOL, ⟨75, 15⟩, 200, 18000, 6, 10, "climb", "none",
    ⟨false, 0, 0, 0⟩, "contour-parallel", 1 / 2, 6⟩

/-- The `if tool_diameter != 6.35` tool override of `detect_operations`. -/
def applyToolOverride (s : MachiningSettings) (tool_diameter : ℚ) : MachiningSettings :=
  if tool_diameter ≠ 127 / 20 then { s with tool := ⟨tool_diameter, "endmill", 2⟩ } else s

/-- The drill operation appended by `detect_operations` for a feature
classified `"drill"`: one `drill_center` contour holding the single
(rounded) center point, at the feature's full depth. -/
def mkDrillOperation (feature : Feature) (counter : ℕ) (object_id : String)
    (tool_diameter : ℚ) : DetectedOperation :=
  { operation_id := "op_" ++ toString counter
    object_id := object_id
    operation_type := "drill"
    geometry :=
      { contours := [⟨"contour_" ++ toString counter, "drill_center",
          [(round4 feature.center_x, round4 feature.center_y)], false⟩]
        offset_applied := ⟨0, "none"⟩
        depth := feature.depth }
    suggested_settings :=
      applyToolOverride { _DEFAULT_DRILL_SETTINGS with total_depth := feature.depth }
        tool_diameter
    enabled := true }

/-- The pocket operation appended by `detect_operations` for a feature
classified `"pocket"`; `coords` are the extracted pocket boundary, whose
contour type is always `"pocket"` in the source. -/
def mkPocketOperation (feature : Feature) (counter : ℕ) (object_id : String)
    (tool_diameter : ℚ) (coords : List Pt) : DetectedOperation :=
  { operation_id := "op_" ++ toString counter
    object_id := object_id
    operation_type := "pocket"
    geometry :=
      { contours := [⟨"contour_" ++ toString counter, "pocket", coords, true⟩]
        offset_applied := ⟨0, "none"⟩
        depth := feature.depth }
    suggested_settings :=
      applyToolOverride { _DEFAULT_POCKET_SETTINGS with total_depth := feature.depth }
        tool_diameter
    enabled := true }

/-- The contour operation always appended last per solid by
`detect_operations`, wrapping the `extract_contours` result. -/
def mkContourOperation (counter : ℕ) (object_id : String) (thickness : ℚ)
    (tool_diameter : ℚ) (contours : List Contour)
    (offset_applied : OffsetApplied) : DetectedOperation :=
  { operation_id := "op_" ++ toString counter
    object_id := object_id
    operation_type := "contour"
    geometry :=
      { contours := contours, offset_applied := offset_applied, depth := thickness }
    suggested_settings :=
      applyToolOverride { _DEFAULT_CONTOUR_SETTINGS with total_depth := thickness }
        tool_diameter
    enabled := true }

/-- The per-feature step of the `detect_operations` loop: the counter is
consumed for every feature, drill/pocket operations are appended,
features classified `none` (large through-holes) are left to the contour
pass, and a pocket whose contour extraction fails is skipped. -/
def detectFeatureStep (extractPocket : Feature → ℕ → Option (List Pt))
    (object_id : String) (tool_diameter : ℚ)
    (acc : ℕ × List DetectedOperation) (feature : Feature) :
    ℕ × List DetectedOperation :=
  let c := acc.1 + 1
  let op_type := _classify_feature feature tool_diameter
  if op_type = some "drill" then
    (c, acc.2 ++ [mkDrillOperation feature c object_id tool_diameter])
  else if op_type = some "pocket" then
    match extractPocket feature c with
    | none => (c, acc.2)
    | some coords => (c, acc.2 ++ [mkPocketOperation feature c object_id tool_diameter coords])
  else (c, acc.2)

/-- `detect_operations` (operation_detector.py), for one solid, given
the kernel's feature list and the `extract_contours` output: classified
feature operations followed by the solid's contour operation. -/
def detect_operations_for_solid (extractPocket : Feature → ℕ → Option (List Pt))
    (features : List Feature) (contour_result_contours : List Contour)
    (contour_offset : OffsetApplied) (object_id : String)
    (thickness : ℚ) (tool_diameter : ℚ) : List DetectedOperation :=
  let res := features.foldl (detectFeatureStep extractPocket object_id tool_diameter) (0, [])
  res.2 ++ [mkContourOperation (res.1 + 1) object_id thickness tool_diameter
    contour_result_contours contour_offset]

/-- The output loop of `extract_contours` (contour_extract.py lines
49–59): every offset polygon becomes a `Contour` whose `type` is the
literal `"exterior"` — inner (hole) wires included. -/
def extractContoursTyped (offset_contours : List (List Pt)) : List Contour :=
  offset_contours.enum.map (fun ic =>
    { id := "contour_" ++ toString (ic.1 + 1)
      type := "exterior"
      coords := ic.2.map (fun pt => (round4 pt.1, round4 pt.2))
      closed := true })

/-- A 4 mm through-hole feature of a 10 mm-thick block. -/
def smallHoleFeature : Feature := ⟨"cylindrical", 2, 10, true, 50, 25⟩

/-- A 20 mm through-hole feature of a 10 mm-thick block. -/
def largeHoleFeature : Feature := ⟨"cylindrical", 10, 10, true, 50, 25⟩

lemma classify_small_hole :
    _classify_feature smallHoleFeature (127 / 20) = some "drill" := by
  simp only [_classify_feature, smallHoleFeature]
  norm_num
  exact fun h => absurd h (by decide)

lemma classify_large_hole :
    _classify_feature largeHoleFeature (127 / 20) = none := by
  simp only [_classify_feature, largeHoleFeature]
  norm_num
  exact fun h => absurd h (by decide)

lemma round4_int (n : ℤ) : round4 (n : ℚ) = n := by
  unfold round4
  have h : ((n : ℚ)) * 10000 = ((n * 10000 : ℤ) : ℚ) := by push_cast; ring
  rw [h, round_intCast]
  push_cast
  field_simp

/-- The feature loop of `detect_operations` only appends operations
whose contours are typed `"drill_center"` or `"pocket"`. -/
lemma detect_fold_contour_types (extractPocket : Feature → ℕ → Option (List Pt))
    (object_id : String) (tool_diameter : ℚ) :
    ∀ (features : List Feature) (acc : ℕ × List DetectedOperation),
      (∀ op ∈ acc.2, ∀ c ∈ op.geometry.contours, c.type ≠ "interior") →
      ∀ op ∈ (features.foldl
          (detectFeatureStep extractPocket object_id tool_diameter) acc).2,
        ∀ c ∈ op.geometry.contours, c.type ≠ "interior" := by
  intro features
  induction features with
  | nil => intro acc hacc; exact hacc
  | cons f fs ih =>
      intro acc hacc
      rw [List.foldl_cons]
      apply ih
      intro op hop c hc
      unfold detectFeatureStep at hop
      by_cases h1 : _classify_feature f tool_diameter = some "drill"
      · rw [if_pos h1] at hop
        rcases List.mem_append.mp hop with h | h
        · exact hacc op h c hc
        · obtain rfl := List.mem_singleton.mp h
          simp only [mkDrillOperation, List.mem_singleton] at hc
          subst hc
          simp
      · rw [if_neg h1] at hop
        by_cases h2 : _classify_feature f tool_diameter = some "pocket"
        · rw [if_pos h2] at hop
          cases hrec : extractPocket f (acc.1 + 1) with
          | none =>
              rw [hrec] at hop
              exact hacc op hop c hc
          | some coords =>
              rw [hrec] at hop
              rcases List.mem_append.mp hop with h | h
              · exact hacc op h c hc
              · obtain rfl := List.mem_singleton.mp h
                simp only [mkPocketOperation, List.mem_singleton] at hc
                subst hc
                simp
        · rw [if_neg h2] at hop
          exact hacc op hop c hc

/-- No operation produced by the detector ever carries an
`"interior"`-typed contour: feature operations are typed
`drill_center`/`pocket`, and the contour operation wraps the
`extract_contours` output whose contours are all typed `"exterior"`. -/
lemma detect_ops_no_interior (extractPocket : Feature → ℕ → Option (List Pt))
    (features : List Feature) (offset_polys : List (List Pt))
    (contour_offset : OffsetApplied) (object_id : String)
    (thickness tool_diameter : ℚ) :
    ∀ op ∈ detect_operations_for_solid extractPocket features
        (extractContoursTyped offset_polys) contour_offset object_id
        thickness tool_diameter,
      ∀ c ∈ op.geometry.contours, c.type ≠ "interior" := by
  intro op hop c hc
  unfold detect_operations_for_solid at hop
  rcases List.mem_append.mp hop with h | h
  · exact detect_fold_contour_types extractPocket object_id tool_diameter
      features (0, []) (by intro _ h; simp at h) op h c hc
  · obtain rfl := List.mem_singleton.mp h
    simp only [mkContourOperation] at hc
    simp only [extractContoursTyped, List.mem_map] at hc
    obtain ⟨ic, _, rfl⟩ := hc
    simp

/-- C3: with a 6.35 mm tool, a 4 mm through-hole is classified as a
drill operation (single center point, full depth) and no interior-typed
contour exists for it; a 20 mm through-hole yields no drill operation —
but, against the claim, no interior-typed contour exists for it either:
`extract_contours` types every contour `"exterior"` (contour_extract.py
line 56), contradicting `test_interior_contours_detected`. -/
theorem small_vs_large_through_hole (extractPocket : Feature → ℕ → Option (List Pt))
    (offset_polys : List (List Pt)) (contour_offset : OffsetApplied)
    (object_id : String) :
    (∃ op ∈ detect_operations_for_solid extractPocket [smallHoleFeature]
        (extractContoursTyped offset_polys) contour_offset object_id 10 (127 / 20),
      op.operation_type = "drill"
      ∧ op.geometry.depth = 10
      ∧ op.geometry.contours.map Contour.type = ["drill_center"]
      ∧ op.geometry.contours.map Contour.coords = [[(50, 25)]])
    ∧ (∀ op ∈ detect_operations_for_solid extractPocket [largeHoleFeature]
        (extractContoursTyped offset_polys) contour_offset object_id 10 (127 / 20),
      op.operation_type ≠ "drill")
    ∧ (∀ op ∈ detect_operations_for_solid extractPocket [largeHoleFeature]
        (extractContoursTyped offset_polys) contour_offset object_id 10 (127 / 20),
      ∀ c ∈ op.geometry.contours, c.type ≠ "interior") := by
  refine ⟨?_, ?_, ?_⟩
  · refine ⟨mkDrillOperation smallHoleFeature 1 object_id (127 / 20), ?_, rfl, rfl, rfl, ?_⟩
    · unfold detect_operations_for_solid
      rw [List.foldl_cons, List.foldl_nil]
      unfold detectFeatureStep
      rw [if_pos (by rw [classify_small_hole])]
      simp
    · simp only [mkDrillOperation, smallHoleFeature, List.map_cons, List.map_nil]
      have h50 := round4_int 50
      have h25 := round4_int 25
      push_cast at h50 h25
      rw [h50, h25]
  · intro op hop
    unfold detect_operations_for_solid at hop
    rw [List.foldl_cons, List.foldl_nil] at hop
    unfold detectFeatureStep at hop
    rw [if_neg (by rw [classify_large_hole]; simp),
      if_neg (by rw [classify_large_hole]; simp)] at hop
    simp only [List.nil_append, List.mem_singleton] at hop
    subst hop
    simp [mkContourOperation]
  · exact detect_ops_no_interior extractPocket [largeHoleFeature] offset_polys
      contour_offset object_id 10 (127 / 20)

/-! ## Toolpath generation from operation assignments
(`toolpath_gen.py`, `generate_toolpath_from_operations`)

Shapely-backed coordinate rotation (`rotate_coords`, trig for short
point lists), polygon validation and pocket clearing
(`pocket_toolpath.py`) are external geometry collaborators, collected in
a `ToolpathGeomOps` record of function parameters.  Python dicts built
by comprehension are modelled by their observable lookup (last binding
of a key wins); dicts passed in from the API (`object_origins`,
`bounding_boxes`) are modelled as partial functions. -/

structure ToolpathGeomOps where
  rotateCoords : List Pt → ℤ → ℚ → ℚ → List Pt
  rotatePoint : Pt → ℤ → ℚ → ℚ → Pt
  polygonValid : List Pt → Bool
  pocketParallel : List Pt → ℚ → ℚ → List (List Pt)
  pocketRaster : List Pt → ℚ → ℚ → List (List Pt)
  hyp : ℚ → ℚ → ℚ

/-- `transform_coords` (geometry_utils.py): rotate about
`(rot_cx, rot_cy)` (shapely for ≥ 3 points, manual trig otherwise),
then translate by `(dx, dy)`. -/
def transform_coords (g : ToolpathGeomOps) (coords : List Pt) (rotation : ℤ)
    (rot_cx rot_cy dx dy : ℚ) : List Pt :=
  let rotated := if rotation ≠ 0 then
      (if 3 ≤ coords.length then g.rotateCoords coords rotation rot_cx rot_cy
       else coords.map (fun c => g.rotatePoint c rotation rot_cx rot_cy))
    else coords
  rotated.map (fun c => (c.1 + dx, c.2 + dy))

/-- `op_lookup = {op.operation_id: op for op in detected.operations}`:
on duplicate ids the later binding wins. -/
def op_lookup (operations : List DetectedOperation) (oid : String) :
    Option DetectedOperation :=
  operations.reverse.find? (fun op => op.operation_id == oid)

/-- `mat_lookup = {m.material_id: m for m in sheet.materials}`. -/
def mat_lookup (materials : List SheetMaterial) (mid : String) :
    Option SheetMaterial :=
  materials.reverse.find? (fun m => m.material_id == mid)

/-- `plc_lookup = {p.object_id: p for p in (placements or [])}`. -/
def plc_lookup (placements : List PlacementItem) (oid : String) :
    Option PlacementItem :=
  placements.reverse.find? (fun p => p.object_id == oid)

/-- `op_to_obj.get(a.operation_id, "")`. -/
def op_to_obj (operations : List DetectedOperation) (oid : String) : String :=
  ((op_lookup operations oid).map (fun op => op.object_id)).getD ""

/-- A Python sort-key tuple `(y, x, order)`; the missing-placement case
uses `float("inf")`, modelled by `⊤`. -/
abbrev SortKey := WithTop ℚ × WithTop ℚ × ℤ

/-- Python's lexicographic tuple comparison on `SortKey`. -/
def tupleLe (u v : SortKey) : Prop :=
  u.1 < v.1 ∨ (u.1 = v.1 ∧ (u.2.1 < v.2.1 ∨ (u.2.1 = v.2.1 ∧ u.2.2 ≤ v.2.2)))

instance : DecidableRel tupleLe := fun u v => by
  unfold tupleLe
  infer_instance

lemma tupleLe_total (u v : SortKey) : tupleLe u v ∨ tupleLe v u := by
  unfold tupleLe
  rcases lt_trichotomy u.1 v.1 with h | h | h
  · exact Or.inl (Or.inl h)
  · rcases lt_trichotomy u.2.1 v.2.1 with h2 | h2 | h2
    · exact Or.inl (Or.inr ⟨h, Or.inl h2⟩)
    · rcases le_total u.2.2 v.2.2 with h3 | h3
      · exact Or.inl (Or.inr ⟨h, Or.inr ⟨h2, h3⟩⟩)
      · exact Or.inr (Or.inr ⟨h.symm, Or.inr ⟨h2.symm, h3⟩⟩)
    · exact Or.inr (Or.inr ⟨h.symm, Or.inl h2⟩)
  · exact Or.inr (Or.inl h)

lemma tupleLe_trans (u v w : SortKey) :
    tupleLe u v → tupleLe v w → tupleLe u w := by
  unfold tupleLe
  intro huv hvw
  rcases huv with h1 | ⟨e1, h1⟩
  · rcases hvw with h2 | ⟨e2, _⟩
    · exact Or.inl (h1.trans h2)
    · exact Or.inl (e2 ▸ h1)
  · rcases hvw with h2 | ⟨e2, h2⟩
    · exact Or.inl (e1 ▸ h2)
    · refine Or.inr ⟨e1.trans e2, ?_⟩
      rcases h1 with h1 | ⟨f1, h1⟩
      · rcases h2 with h2 | ⟨f2, _⟩
        · exact Or.inl (h1.trans h2)
        · exact Or.inl (f2 ▸ h1)
      · rcases h2 with h2 | ⟨f2, h2⟩
        · exact Or.inl (f1 ▸ h2)
        · exact Or.inr ⟨f1.trans f2, h1.trans h2⟩

/-- `_placement_sort_key` (toolpath_gen.py): `(y, x, order)` for a
placed object, `(inf, inf, order)` otherwise. -/
def _placement_sort_key (operations : List DetectedOperation)
    (placements : List PlacementItem) (a : OperationAssignment) : SortKey :=
  match plc_lookup placements (op_to_obj operations a.operation_id) with
  | some p => ((p.y_offset : WithTop ℚ), (p.x_offset : WithTop ℚ), a.order)
  | none => (⊤, ⊤, a.order)

/-- Comparison underlying `sorted(assignments, key=_placement_sort_key)`. -/
def placementKeyLe (operations : List DetectedOperation)
    (placements : List PlacementItem) (a b : OperationAssignment) : Prop :=
  tupleLe (_placement_sort_key operations placements a)
    (_placement_sort_key operations placements b)

/-- Comparison underlying `sorted(assignments, key=lambda a: a.order)`. -/
def orderLe (a b : OperationAssignment) : Prop := a.order ≤ b.order

instance (operations : List DetectedOperation) (placements : List PlacementItem) :
    DecidableRel (placementKeyLe operations placements) := fun a b => by
  unfold placementKeyLe
  infer_instance

instance (operations : List DetectedOperation) (placements : List PlacementItem) :
    IsTotal OperationAssignment (placementKeyLe operations placements) :=
  ⟨fun a b => tupleLe_total _ _⟩

instance (operations : List DetectedOperation) (placements : List PlacementItem) :
    IsTrans OperationAssignment (placementKeyLe operations placements) :=
  ⟨fun _ _ _ => tupleLe_trans _ _ _⟩

instance : DecidableRel orderLe := fun a b => by
  unfold orderLe
  infer_instance

instance : IsTotal OperationAssignment orderLe := ⟨fun a b => le_total a.order b.order⟩

instance : IsTrans OperationAssignment orderLe := ⟨fun _ _ _ => le_trans⟩

/-- Python's `sorted` is the stable sort; `List.insertionSort` with a
non-strict total preorder is stable, and the stable sorted list is
unique, so the two agree.  When placements exist, sort by placement key;
otherwise by the explicit order (`toolpath_gen.py` lines 86–99). -/
def sortedAssignments (operations : List DetectedOperation)
    (placements : List PlacementItem)
    (assignments : List OperationAssignment) : List OperationAssignment :=
  if placements.isEmpty then assignments.insertionSort orderLe
  else assignments.insertionSort (placementKeyLe operations placements)

/-- The resolved model→sheet transform of one assignment: placement
rotation, rotation pivot (BB center, else contour extent center), and
translation `placement_offset − origin`. -/
structure Pose where
  rotation : ℤ
  rot_cx : ℚ
  rot_cy : ℚ
  dx : ℚ
  dy : ℚ
  deriving DecidableEq, Repr

/-- Lines 113–134 of `generate_toolpath_from_operations`. -/
def resolvePose (detected_op : DetectedOperation)
    (placements : List PlacementItem)
    (object_origins : String → Option (ℚ × ℚ))
    (bounding_boxes : String → Option BoundingBox) : Pose :=
  let placement := plc_lookup placements detected_op.object_id
  let origin := (object_origins detected_op.object_id).getD (0, 0)
  let place_x := match placement with | some p => p.x_offset | none => 0
  let place_y := match placement with | some p => p.y_offset | none => 0
  let rotation := match placement with | some p => p.rotation | none => 0
  let dx := -origin.1 + place_x
  let dy := -origin.2 + place_y
  match bounding_boxes detected_op.object_id with
  | some bb => ⟨rotation, origin.1 + bb.x / 2, origin.2 + bb.y / 2, dx, dy⟩
  | none =>
      let all_cx := detected_op.geometry.contours.flatMap
        (fun ct => ct.coords.map Prod.fst)
      let all_cy := detected_op.geometry.contours.flatMap
        (fun ct => ct.coords.map Prod.snd)
      let rot_cx := match all_cx.min?, all_cx.max? with
        | some mn, some mx => (mn + mx) / 2
        | _, _ => 0
      let rot_cy := match all_cy.min?, all_cy.max? with
        | some mn, some mx => (mn + mx) / 2
        | _, _ => 0
      ⟨rotation, rot_cx, rot_cy, dx, dy⟩

/-- The sort of a contour operation's contours: interior first (key 0),
everything else after (key 1), stably. -/
def contourTypeLe (c c' : Contour) : Prop :=
  (if c.type = "interior" then (0 : ℕ) else 1) ≤
    (if c'.type = "interior" then (0 : ℕ) else 1)

instance : DecidableRel contourTypeLe := fun c c' => by
  unfold contourTypeLe
  infer_instance

/-- One toolpath of the contour branch (lines 209–233): transform the
contour, then Z step-down passes through the assigned material. -/
def contour_toolpath (g : ToolpathGeomOps) (assignment : OperationAssignment)
    (detected_op : DetectedOperation) (material : SheetMaterial)
    (placements : List PlacementItem)
    (object_origins : String → Option (ℚ × ℚ))
    (bounding_boxes : String → Option BoundingBox)
    (contour : Contour) : Toolpath :=
  let pose := resolvePose detected_op placements object_origins bounding_boxes
  let total_depth := if detected_op.operation_type = "contour" then material.thickness
    else detected_op.geometry.depth
  let offset_coords := transform_coords g contour.coords pose.rotation
    pose.rot_cx pose.rot_cy pose.dx pose.dy
  { operation_id := assignment.operation_id
    passes := _compute_passes g.hyp offset_coords assignment.settings.depth_per_pass
      total_depth assignment.settings.tabs
    settings := some assignment.settings }

/-- The body of the per-assignment loop of
`generate_toolpath_from_operations` (lines 101–233): skip disabled
assignments and missing operation/material lookups, then dispatch on
the operation kind. -/
def assignment_toolpaths (g : ToolpathGeomOps)
    (operations : List DetectedOperation) (sheet : SheetSettings)
    (placements : List PlacementItem)
    (object_origins : String → Option (ℚ × ℚ))
    (bounding_boxes : String → Option BoundingBox)
    (assignment : OperationAssignment) : List Toolpath :=
  if assignment.enabled = false then []
  else
    match op_lookup operations assignment.operation_id with
    | none => []
    | some detected_op =>
      match mat_lookup sheet.materials assignment.material_id with
      | none => []
      | some material =>
        let pose := resolvePose detected_op placements object_origins bounding_boxes
        let total_depth := if detected_op.operation_type = "contour"
          then material.thickness else detected_op.geometry.depth
        if detected_op.operation_type = "drill" then
          match detected_op.geometry.contours.head? with
          | none => []
          | some contour =>
              let cx := (contour.coords.map Prod.fst).sum / contour.coords.length
              let cy := (contour.coords.map Prod.snd).sum / contour.coords.length
              let center := (transform_coords g [(cx, cy)] pose.rotation pose.rot_cx
                pose.rot_cy pose.dx pose.dy).headD (0, 0)
              [{ operation_id := assignment.operation_id
                 passes := generate_drill_toolpath center total_depth
                   assignment.settings.depth_per_peck
                 settings := some assignment.settings }]
        else if detected_op.operation_type = "pocket" then
          match detected_op.geometry.contours.head? with
          | none => []
          | some contour =>
              if contour.coords.length < 3 then []
              else
                let pocket_coords := transform_coords g contour.coords pose.rotation
                  pose.rot_cx pose.rot_cy pose.dx pose.dy
                if g.polygonValid pocket_coords = false then []
                else
                  let tool_dia := assignment.settings.tool.diameter
                  let stepover := assignment.settings.pocket_stepover
                  let pocket_rings := if assignment.settings.pocket_pattern = "raster"
                    then g.pocketRaster pocket_coords tool_dia stepover
                    else g.pocketParallel pocket_coords tool_dia stepover
                  let depth_per_pass := assignment.settings.depth_per_pass
                  let num_z_passes := ⌈total_depth / depth_per_pass⌉.toNat
                  let zs := (List.range num_z_passes).flatMap (fun z_i =>
                    let z_depth := if z_i = num_z_passes - 1 then -PENETRATION_MARGIN
                      else total_depth - ((z_i : ℚ) + 1) * depth_per_pass
                    pocket_rings.map (fun ring => (z_depth, ring)))
                  let all_passes := zs.enum.map (fun izr =>
                    { pass_number := izr.1 + 1, z_depth := izr.2.1,
                      path := izr.2.2, tabs := ([] : List TabSegment) })
                  [{ operation_id := assignment.operation_id
                     passes := all_passes
                     settings := some assignment.settings }]
        else
          (List.insertionSort contourTypeLe detected_op.geometry.contours).map
            (contour_toolpath g assignment detected_op material placements
              object_origins bounding_boxes)

/-- `generate_toolpath_from_operations` (toolpath_gen.py): sort the
assignments, emit each enabled assignment's toolpaths in that order,
and report the first material's footprint. -/
def generate_toolpath_from_operations (g : ToolpathGeomOps)
    (assignments : List OperationAssignment)
    (operations : List DetectedOperation) (sheet : SheetSettings)
    (placements : List PlacementItem)
    (object_origins : String → Option (ℚ × ℚ))
    (bounding_boxes : String → Option BoundingBox) : ToolpathGenResult :=
  { toolpaths := (sortedAssignments operations placements assignments).flatMap
      (assignment_toolpaths g operations sheet placements object_origins
        bounding_boxes)
    sheet_width := (sheet.materials.head?).map (fun m => m.width)
    sheet_depth := (sheet.materials.head?).map (fun m => m.depth) }

/-! ## C7: processing order of assignments -/

/-- The ordering stated by the claim: placed objects ascending by
`y_offset` then `x_offset` (ties by explicit order), unplaced objects
last, ordered among themselves by explicit order. -/
def claimOrderRel (operations : List DetectedOperation)
    (placements : List PlacementItem) (a b : OperationAssignment) : Prop :=
  match plc_lookup placements (op_to_obj operations a.operation_id),
        plc_lookup placements (op_to_obj operations b.operation_id) with
  | some pa, some pb =>
      pa.y_offset < pb.y_offset
      ∨ (pa.y_offset = pb.y_offset ∧ (pa.x_offset < pb.x_offset
          ∨ (pa.x_offset = pb.x_offset ∧ a.order ≤ b.order)))
  | some _, none => True
  | none, some _ => False
  | none, none => a.order ≤ b.order

/-- The code's sort key comparison coincides with the claim's
ordering. -/
lemma placementKeyLe_iff_claimOrderRel (operations : List DetectedOperation)
    (placements : List PlacementItem) (a b : OperationAssignment) :
    placementKeyLe operations placements a b ↔
      claimOrderRel operations placements a b := by
  unfold placementKeyLe claimOrderRel _placement_sort_key tupleLe
  cases h1 : plc_lookup placements (op_to_obj operations a.operation_id) with
  | none =>
      cases h2 : plc_lookup placements (op_to_obj operations b.operation_id) with
      | none => simp [lt_irrefl]
      | some pb => simp [@not_top_lt (WithTop ℚ) _ _, (WithTop.top_ne_coe)]
  | some pa =>
      cases h2 : plc_lookup placements (op_to_obj operations b.operation_id) with
      | none => simp [WithTop.coe_lt_top]
      | some pb => simp [WithTop.coe_lt_coe, WithTop.coe_eq_coe]

/-- The C7 property of the assignment processing order: with placements
present, the processed list is a permutation of the input sorted by the
claim's ordering; without placements, sorted by explicit order. -/
def assignmentOrderSpec (operations : List DetectedOperation)
    (placements : List PlacementItem)
    (assignments : List OperationAssignment) : Prop :=
  List.Sorted (claimOrderRel operations placements)
    (sortedAssignments operations placements assignments)
  ∧ List.Perm (sortedAssignments operations placements assignments) assignments
  ∧ List.Sorted orderLe (sortedAssignments operations [] assignments)
  ∧ List.Perm (sortedAssignments operations [] assignments) assignments

/-- C7: when placements are non-empty, `generate_toolpath_from_operations`
processes assignments ascending by their object's placement `y_offset`
then `x_offset`, with unplaced objects last by explicit order; with no
placements, ascending by explicit order.  (The generator folds over
`sortedAssignments` by definition.) -/
theorem toolpath_assignment_ordering (operations : List DetectedOperation)
    (placements : List PlacementItem)
    (assignments : List OperationAssignment) (hp : placements ≠ []) :
    assignmentOrderSpec operations placements assignments := by
  have hne : placements.isEmpty = false := by
    cases placements with
    | nil => exact absurd rfl hp
    | cons p ps => rfl
  refine ⟨?_, ?_, ?_, ?_⟩
  · rw [sortedAssignments, hne]
    simp only [Bool.false_eq_true, if_false]
    exact (List.sorted_insertionSort (placementKeyLe operations placements)
      assignments).imp (fun h =>
        (placementKeyLe_iff_claimOrderRel operations placements _ _).mp h)
  · rw [sortedAssignments, hne]
    simp only [Bool.false_eq_true, if_false]
    exact List.perm_insertionSort _ assignments
  · rw [sortedAssignments]
    simp only [List.isEmpty_nil, if_true]
    exact List.sorted_insertionSort orderLe assignments
  · rw [sortedAssignments]
    simp only [List.isEmpty_nil, if_true]
    exact List.perm_insertionSort _ assignments

/-- Witness for C7 with one placement and no assignments. -/
theorem toolpath_assignment_ordering_witness :
    ([⟨"obj_A", "mat_1", "sheet_1", 0, 0, 0⟩] : List PlacementItem) ≠ [] ∧
    assignmentOrderSpec [] [⟨"obj_A", "mat_1", "sheet_1", 0, 0, 0⟩] [] :=
  ⟨List.cons_ne_nil _ _,
    toolpath_assignment_ordering [] [⟨"obj_A", "mat_1", "sheet_1", 0, 0, 0⟩] []
      (List.cons_ne_nil _ _)⟩

/-! ## C5: interior contours are cut before exterior contours -/

/-- C5: for a contour operation whose geometry holds one interior and
one exterior contour (in either input order), the generated output
lists the interior contour's toolpath before the exterior's. -/
theorem interior_toolpath_before_exterior (g : ToolpathGeomOps)
    (operations : List DetectedOperation) (sheet : SheetSettings)
    (placements : List PlacementItem)
    (object_origins : String → Option (ℚ × ℚ))
    (bounding_boxes : String → Option BoundingBox)
    (a : OperationAssignment) (dop : DetectedOperation)
    (material : SheetMaterial) (cInt cExt : Contour)
    (hen : a.enabled = true)
    (hop : op_lookup operations a.operation_id = some dop)
    (hmat : mat_lookup sheet.materials a.material_id = some material)
    (htype : dop.operation_type = "contour")
    (hint : cInt.type = "interior") (hext : cExt.type ≠ "interior")
    (hcont : dop.geometry.contours = [cInt, cExt] ∨
      dop.geometry.contours = [cExt, cInt]) :
    (generate_toolpath_from_operations g [a] operations sheet placements
        object_origins bounding_boxes).toolpaths =
      [contour_toolpath g a dop material placements object_origins
        bounding_boxes cInt,
       contour_toolpath g a dop material placements object_origins
        bounding_boxes cExt] := by
  have hsorted : sortedAssignments operations placements [a] = [a] := by
    unfold sortedAssignments
    split <;> rfl
  have hbranch : assignment_toolpaths g operations sheet placements
      object_origins bounding_boxes a =
      (List.insertionSort contourTypeLe dop.geometry.contours).map
        (contour_toolpath g a dop material placements object_origins
          bounding_boxes) := by
    unfold assignment_toolpaths
    rw [hen]
    simp only [Bool.true_eq_false, if_false, hop, hmat, htype]
    rw [if_neg (by decide), if_neg (by decide)]
  have hsort2 : List.insertionSort contourTypeLe dop.geometry.contours =
      [cInt, cExt] := by
    have hle : contourTypeLe cInt cExt := by
      unfold contourTypeLe
      rw [if_pos hint, if_neg hext]
      exact Nat.zero_le 1
    have hnle : ¬ contourTypeLe cExt cInt := by
      unfold contourTypeLe
      rw [if_pos hint, if_neg hext]
      omega
    rcases hcont with h | h <;> rw [h]
    · simp only [List.insertionSort, List.orderedInsert]
      rw [if_pos hle]
    · simp only [List.insertionSort, List.orderedInsert]
      rw [if_neg hnle]
  unfold generate_toolpath_from_operations
  simp only [hsorted, List.flatMap_cons, List.flatMap_nil, List.append_nil,
    hbranch, hsort2, List.map_cons, List.map_nil]

/-- A trivial geometry collaborator for concrete runs. -/
def c5Geom : ToolpathGeomOps :=
  ⟨fun coords _ _ _ => coords, fun c _ _ _ => c, fun _ => true,
    fun coords _ _ => [coords], fun coords _ _ => [coords], fun _ _ => 10⟩

def c5Interior : Contour :=
  ⟨"c_002", "interior", [(30, 10), (70, 10), (70, 40), (30, 40), (30, 10)], true⟩

def c5Exterior : Contour :=
  ⟨"c_001", "exterior", [(0, 0), (100, 0), (100, 50), (0, 50), (0, 0)], true⟩

def c5Settings : MachiningSettings :=
  ⟨"contour", ⟨127 / 20, "endmill", 2⟩, ⟨75, 25⟩, 200, 18000, 6, 18, "climb",
    "outside", ⟨true, 8, 5, 4⟩, "contour-parallel", 1 / 2, 6⟩

def c5Operation : DetectedOperation :=
  ⟨"op_001", "obj_001", "contour",
    ⟨[c5Exterior, c5Interior], ⟨0, "none"⟩, 10⟩, c5Settings, true⟩

def c5Assignment : OperationAssignment :=
  ⟨"op_001", "mtl_1", true, c5Settings, 1, none⟩

def c5Material : SheetMaterial := ⟨"mtl_1", "", 600, 400, 12, 0, 0⟩

/-- Witness for C5: a square exterior with a square hole, exterior
listed first. -/
theorem interior_toolpath_before_exterior_witness :
    (c5Assignment.enabled = true ∧
      op_lookup [c5Operation] c5Assignment.operation_id = some c5Operation ∧
      mat_lookup [c5Material] c5Assignment.material_id = some c5Material ∧
      c5Operation.operation_type = "contour" ∧
      c5Interior.type = "interior" ∧ c5Exterior.type ≠ "interior" ∧
      (c5Operation.geometry.contours = [c5Interior, c5Exterior] ∨
        c5Operation.geometry.contours = [c5Exterior, c5Interior])) ∧
    (generate_toolpath_from_operations c5Geom [c5Assignment] [c5Operation]
        ⟨[c5Material]⟩ [] (fun _ => none) (fun _ => none)).toolpaths =
      [contour_toolpath c5Geom c5Assignment c5Operation c5Material []
        (fun _ => none) (fun _ => none) c5Interior,
       contour_toolpath c5Geom c5Assignment c5Operation c5Material []
        (fun _ => none) (fun _ => none) c5Exterior] :=
  ⟨⟨rfl, by simp [op_lookup, c5Operation, c5Assignment],
    by simp [mat_lookup, c5Material, c5Assignment], rfl, rfl, by decide,
    Or.inr rfl⟩,
   interior_toolpath_before_exterior c5Geom [c5Operation] ⟨[c5Material]⟩ []
    (fun _ => none) (fun _ => none) c5Assignment c5Operation c5Material
    c5Interior c5Exterior rfl
    (by simp [op_lookup, c5Operation, c5Assignment])
    (by simp [mat_lookup, c5Material, c5Assignment]) rfl rfl (by decide)
    (Or.inr rfl)⟩

/-! ## C8: a bad assignment is skipped and never aborts the batch -/

section SortFilter

variable {α : Type} (r : α → α → Prop) [DecidableRel r]

lemma orderedInsert_of_forall_le {a : α} {l : List α}
    (h : ∀ b ∈ l, r a b) : List.orderedInsert r a l = a :: l := by
  cases l with
  | nil => rfl
  | cons b t =>
      rw [List.orderedInsert, if_pos (h b (by simp))]

variable [IsTotal α r] [IsTrans α r]

/-- Filtering commutes with ordered insertion into a sorted list. -/
lemma filter_orderedInsert (p : α → Bool) (a : α) :
    ∀ l : List α, l.Sorted r →
      (List.orderedInsert r a l).filter p =
        if p a then List.orderedInsert r a (l.filter p) else l.filter p := by
  intro l
  induction l with
  | nil =>
      intro _
      by_cases hpa : p a <;> simp [List.orderedInsert, hpa]
  | cons b t ih =>
      intro hs
      rw [List.orderedInsert]
      by_cases hab : r a b
      · rw [if_pos hab]
        by_cases hpa : p a
        · rw [if_pos hpa]
          have hall : ∀ c ∈ List.filter p (b :: t), r a c := by
            intro c hc
            have hc' := List.mem_of_mem_filter hc
            rcases List.mem_cons.mp hc' with rfl | hct
            · exact hab
            · exact Trans.trans hab (List.rel_of_sorted_cons hs c hct)
          rw [orderedInsert_of_forall_le r hall, List.filter_cons, if_pos hpa]
        · rw [if_neg hpa, List.filter_cons, if_neg hpa]
      · rw [if_neg hab]
        rw [List.filter_cons, List.filter_cons]
        by_cases hpb : p b
        · rw [if_pos hpb, if_pos hpb, ih hs.of_cons]
          by_cases hpa : p a
          · rw [if_pos hpa, if_pos hpa, List.orderedInsert, if_neg hab]
          · rw [if_neg hpa, if_neg hpa]
        · rw [if_neg hpb, if_neg hpb]
          exact ih hs.of_cons

/-- Filtering commutes with the stable insertion sort. -/
lemma filter_insertionSort (p : α → Bool) :
    ∀ l : List α,
      (List.insertionSort r l).filter p =
        List.insertionSort r (l.filter p) := by
  intro l
  induction l with
  | nil => rfl
  | cons x xs ih =>
      rw [List.insertionSort,
        filter_orderedInsert r p x _ (List.sorted_insertionSort r xs), ih,
        List.filter_cons]
      by_cases hpx : p x
      · rw [if_pos hpx, if_pos hpx, List.insertionSort]
      · rw [if_neg hpx, if_neg hpx]

end SortFilter

/-- Elements on which `f` is empty contribute nothing to `flatMap`. -/
lemma flatMap_filter_eq {α β : Type} {f : α → List β} (p : α → Bool)
    (h : ∀ x, p x = false → f x = []) :
    ∀ l : List α, l.flatMap f = (l.filter p).flatMap f := by
  intro l
  induction l with
  | nil => rfl
  | cons x xs ih =>
      rw [List.flatMap_cons, List.filter_cons]
      by_cases hpx : p x
      · rw [if_pos hpx, List.flatMap_cons, ih]
      · rw [if_neg hpx, h x (Bool.eq_false_iff.mpr hpx), List.nil_append, ih]

/-- An assignment whose operation id or material id resolves to nothing
yields no toolpaths. -/
lemma assignment_toolpaths_bad (g : ToolpathGeomOps)
    (operations : List DetectedOperation) (sheet : SheetSettings)
    (placements : List PlacementItem)
    (object_origins : String → Option (ℚ × ℚ))
    (bounding_boxes : String → Option BoundingBox)
    (a : OperationAssignment)
    (hbad : op_lookup operations a.operation_id = none ∨
      mat_lookup sheet.materials a.material_id = none) :
    assignment_toolpaths g operations sheet placements object_origins
      bounding_boxes a = [] := by
  unfold assignment_toolpaths
  by_cases hen : a.enabled = false
  · rw [if_pos hen]
  · rw [if_neg hen]
    rcases hbad with h | h
    · rw [h]
    · cases hop : op_lookup operations a.operation_id with
      | none => rfl
      | some dop => rw [h]

/-- Dropping a contribution-free element anywhere in the input leaves
the sorted `flatMap` unchanged. -/
lemma flatMap_insertionSort_erase {α β : Type} [DecidableEq α]
    (r : α → α → Prop) [DecidableRel r] [IsTotal α r] [IsTrans α r]
    (f : α → List β) (a : α) (hfa : f a = [])
    (l₁ l₂ : List α) :
    (List.insertionSort r (l₁ ++ a :: l₂)).flatMap f =
      (List.insertionSort r (l₁ ++ l₂)).flatMap f := by
  classical
  set p : α → Bool := fun b => decide (b ≠ a) with hp
  have hpf : ∀ x, p x = false → f x = [] := by
    intro x hx
    have : x = a := by
      have := of_decide_eq_false hx
      exact not_not.mp this
    rw [this, hfa]
  have hpa : p a = false := by simp [hp]
  rw [flatMap_filter_eq p hpf, filter_insertionSort r p,
    flatMap_filter_eq p hpf (List.insertionSort r (l₁ ++ l₂)),
    filter_insertionSort r p]
  congr 2
  rw [List.filter_append, List.filter_append, List.filter_cons, hpa]
  simp

/-- C8: an assignment referencing an unknown operation id or material id
emits no toolpath, and the output equals the output with that
assignment removed from the input — one bad unit never aborts the
batch. -/
theorem toolpath_skip_bad_assignment (g : ToolpathGeomOps)
    (operations : List DetectedOperation) (sheet : SheetSettings)
    (placements : List PlacementItem)
    (object_origins : String → Option (ℚ × ℚ))
    (bounding_boxes : String → Option BoundingBox)
    (l₁ l₂ : List OperationAssignment) (a : OperationAssignment)
    (hbad : op_lookup operations a.operation_id = none ∨
      mat_lookup sheet.materials a.material_id = none) :
    generate_toolpath_from_operations g (l₁ ++ a :: l₂) operations sheet
        placements object_origins bounding_boxes =
      generate_toolpath_from_operations g (l₁ ++ l₂) operations sheet
        placements object_origins bounding_boxes
    ∧ assignment_toolpaths g operations sheet placements object_origins
        bounding_boxes a = [] := by
  have hfa := assignment_toolpaths_bad g operations sheet placements
    object_origins bounding_boxes a hbad
  refine ⟨?_, hfa⟩
  unfold generate_toolpath_from_operations
  unfold sortedAssignments
  by_cases hpl : placements.isEmpty
  · rw [if_pos hpl, if_pos hpl]
    rw [flatMap_insertionSort_erase orderLe _ a hfa l₁ l₂]
  · rw [if_neg hpl, if_neg hpl]
    rw [flatMap_insertionSort_erase (placementKeyLe operations placements)
      _ a hfa l₁ l₂]

/-- Witness for C8: one assignment pointing at an unknown operation id. -/
theorem toolpath_skip_bad_assignment_witness :
    (op_lookup [] c5Assignment.operation_id = none ∨
      mat_lookup ([] : List SheetMaterial) c5Assignment.material_id = none) ∧
    (generate_toolpath_from_operations c5Geom ([] ++ c5Assignment :: [])
        [] ⟨[]⟩ [] (fun _ => none) (fun _ => none) =
      generate_toolpath_from_operations c5Geom ([] ++ [])
        [] ⟨[]⟩ [] (fun _ => none) (fun _ => none)
    ∧ assignment_toolpaths c5Geom [] ⟨[]⟩ [] (fun _ => none) (fun _ => none)
        c5Assignment = []) :=
  ⟨Or.inl rfl,
    toolpath_skip_bad_assignment c5Geom [] ⟨[]⟩ [] (fun _ => none)
      (fun _ => none) [] [] c5Assignment (Or.inl rfl)⟩

/-! ## Nesting (`nesting.py`, `auto_nesting`)

The shapely polygon type and its operations (Polygon/box construction,
mitre buffer, centroid rotation, translation, bounds, containment,
intersection) are the external geometry collaborator, abstracted as a
`NestGeom` record over an opaque polygon type `P`.  The Python dict
`stocks` (string keys `sheet_1`, `sheet_2`, … created in order, only
compared for equality) is modelled as an insertion-ordered association
list keyed by the sheet number. -/

structure NestGeom (P : Type) where
  fromOutline : List Pt → P
  box : ℚ → ℚ → ℚ → ℚ → P
  buffer : P → ℚ → P
  rotate : P → ℤ → P
  translate : P → ℚ → ℚ → P
  minX : P → ℚ
  minY : P → ℚ
  maxX : P → ℚ
  maxY : P → ℚ
  contains : P → P → Bool
  intersects : P → P → Bool

/-- The fields of schema `BrepObject` read by the nesting engine. -/
structure BrepObject where
  object_id : String
  bounding_box : BoundingBox
  outline : List Pt
  deriving DecidableEq, Repr

/-- `_object_polygon` (nesting.py): outline polygon if one with ≥ 3
points exists, else the bounding box, buffered outward by `margin`. -/
def _object_polygon {P : Type} (geo : NestGeom P) (obj : BrepObject)
    (margin : ℚ) : P :=
  let poly := if 3 ≤ obj.outline.length then geo.fromOutline obj.outline
    else geo.box 0 0 obj.bounding_box.x obj.bounding_box.y
  if 0 < margin then geo.buffer poly margin else poly

/-- The bounding-box area sort key of `auto_nesting`. -/
def objArea (o : BrepObject) : ℚ := o.bounding_box.x * o.bounding_box.y

/-- `sorted(objects, key=area, reverse=True)` is the stable descending
sort: compare by `≥` on the key. -/
def areaGe (a b : BrepObject) : Prop := objArea b ≤ objArea a

instance : DecidableRel areaGe := fun a b => by
  unfold areaGe
  infer_instance

/-- The Y (resp. X) scan values of the BLF grid search: `k*step` while
`k*step + partDim ≤ stockDim`.  (The source's fixed `step = 5` is
positive; a non-positive step would not terminate in Python.) -/
def gridSteps (stockDim partDim step : ℚ) : List ℚ :=
  if partDim ≤ stockDim ∧ 0 < step then
    (List.range (⌊(stockDim - partDim) / step⌋.toNat + 1)).map
      (fun k => (k : ℚ) * step)
  else []

/-- `rotated = shapely_rotate(part, angle, origin="centroid") if angle
else part`. -/
def blfRotated {P : Type} (geo : NestGeom P) (part : P) (angle : ℤ) : P :=
  if angle ≠ 0 then geo.rotate part angle else part

/-- The candidate polygon shifted so its minimum corner is at the
origin. -/
def blfNormalized {P : Type} (geo : NestGeom P) (part : P) (angle : ℤ) : P :=
  let rotated := blfRotated geo part angle
  geo.translate rotated (-(geo.minX rotated)) (-(geo.minY rotated))

/-- The acceptance test of one grid position `(y, x)`: inside the stock
and intersecting no already-placed polygon. -/
def blfAccept {P : Type} (geo : NestGeom P) (stock_poly : P) (placed : List P)
    (normalized : P) (yx : ℚ × ℚ) : Bool :=
  let candidate := geo.translate normalized yx.2 yx.1
  geo.contains stock_poly candidate &&
    placed.all (fun q => !(geo.intersects candidate q))

/-- The eight candidate angles `range(0, 360, 45)`. -/
def blfAngles : List ℤ := [0, 45, 90, 135, 180, 225, 270, 315]

/-- `_try_place_blf` (nesting.py): first angle whose rotated part fits
the stock dimensions and admits a grid position, scanning `(y, x)`
lexicographically bottom-left first; the first hit wins. -/
def _try_place_blf {P : Type} (geo : NestGeom P) (part : P) (stock_poly : P)
    (placed : List P) (stock_w stock_h : ℚ) (step : ℚ) :
    Option (ℚ × ℚ × ℤ) :=
  blfAngles.findSome? (fun angle =>
    let rotated := blfRotated geo part angle
    let part_w := geo.maxX rotated - geo.minX rotated
    let part_h := geo.maxY rotated - geo.minY rotated
    if stock_w < part_w ∨ stock_h < part_h then none
    else
      let grid := (gridSteps stock_h part_h step).flatMap (fun y =>
        (gridSteps stock_w part_w step).map (fun x => (y, x)))
      (grid.find? (blfAccept geo stock_poly placed
          (blfNormalized geo part angle))).map
        (fun yx => (yx.2, yx.1, angle)))

/-- `_position_polygon` (nesting.py). -/
def _position_polygon {P : Type} (geo : NestGeom P) (part : P) (x y : ℚ)
    (angle : ℤ) : P :=
  let rotated := blfRotated geo part angle
  geo.translate rotated (x - geo.minX rotated) (y - geo.minY rotated)

/-- `f"sheet_{k}"`. -/
def sheetName (k : ℕ) : String := "sheet_" ++ toString k

/-- `stocks.get(sid, [])`. -/
def stocksGet {P : Type} (stocks : List (ℕ × List P)) (sid : ℕ) : List P :=
  ((stocks.find? (fun e => e.1 == sid)).map Prod.snd).getD []

/-- `if sid not in stocks: stocks[sid] = []` followed by
`stocks[sid].append(poly)`. -/
def stocksAppend {P : Type} (stocks : List (ℕ × List P)) (sid : ℕ) (poly : P) :
    List (ℕ × List P) :=
  if stocks.any (fun e => e.1 == sid) then
    stocks.map (fun e => if e.1 == sid then (e.1, e.2 ++ [poly]) else e)
  else stocks ++ [(sid, [poly])]

/-- The running state of the `auto_nesting` loop. -/
structure NestState (P : Type) where
  stocks : List (ℕ × List P)
  placements : List PlacementItem

/-- One iteration of the `auto_nesting` loop: try the existing sheets in
creation order, then a fresh sheet; place at the first fit, else fall
back to the origin of `sheet_1`. -/
def nestStep {P : Type} (geo : NestGeom P) (template : SheetMaterial)
    (margin : ℚ) (st : NestState P) (obj : BrepObject) : NestState P :=
  let base_poly := _object_polygon geo obj margin
  let stock_poly := geo.box 0 0 template.width template.depth
  let stock_ids := (st.stocks.map Prod.fst) ++ [st.stocks.length + 1]
  match stock_ids.findSome? (fun sid =>
      (_try_place_blf geo base_poly stock_poly (stocksGet st.stocks sid)
        template.width template.depth 5).map (fun xya => (sid, xya))) with
  | some (sid, (x, y, angle)) =>
      { stocks := stocksAppend st.stocks sid
          (_position_polygon geo base_poly x y angle)
        placements := st.placements ++ [⟨obj.object_id, template.material_id,
          sheetName sid, x, y, angle⟩] }
  | none =>
      { stocks := st.stocks
        placements := st.placements ++ [⟨obj.object_id, template.material_id,
          "sheet_1", 0, 0, 0⟩] }

/-- The sorted fold of `auto_nesting` from the empty state. -/
def nestRun {P : Type} (geo : NestGeom P) (template : SheetMaterial)
    (margin : ℚ) (objects : List BrepObject) : NestState P :=
  (List.insertionSort areaGe objects).foldl (nestStep geo template margin) ⟨[], []⟩

/-- `auto_nesting` (nesting.py). -/
def auto_nesting {P : Type} (geo : NestGeom P) (objects : List BrepObject)
    (sheet : SheetSettings) (tool_diameter : ℚ) (clearance : ℚ) :
    List PlacementItem :=
  match sheet.materials.head? with
  | none => []
  | some template =>
      if objects.isEmpty then []
      else (nestRun geo template (tool_diameter / 2 + clearance) objects).placements

/-- A part individually fits the stock: `_try_place_blf` succeeds on an
empty sheet. -/
def fitsEmptySheet {P : Type} (geo : NestGeom P) (obj : BrepObject)
    (template : SheetMaterial) (margin : ℚ) : Prop :=
  (_try_place_blf geo (_object_polygon geo obj margin)
    (geo.box 0 0 template.width template.depth) []
    template.width template.depth 5).isSome = true

/-- The sheet dictionary's keys are `1, …, k` in creation order. -/
def stocksKeysOk {P : Type} (stocks : List (ℕ × List P)) : Prop :=
  stocks.map Prod.fst = List.range' 1 stocks.length

/-- On every sheet the recorded margined polygons are pairwise
non-intersecting. -/
def stocksNoOverlap {P : Type} (geo : NestGeom P)
    (stocks : List (ℕ × List P)) : Prop :=
  ∀ e ∈ stocks, e.2.Pairwise
    (fun q q' => geo.intersects q q' = false ∧ geo.intersects q' q = false)

/-- The margined polygons recorded across all sheets. -/
def totalPolys {P : Type} (stocks : List (ℕ × List P)) : ℕ :=
  (stocks.map (fun e => e.2.length)).sum

section NestingLemmas

variable {P : Type} (geo : NestGeom P)

/-- Unpacking `_try_place_blf = some`: the angle is one of the eight
candidates and the returned `(y, x)` position passed the acceptance
test against the given obstacle list. -/
lemma try_place_blf_spec {part stock_poly : P} {placed : List P}
    {stock_w stock_h step x y : ℚ} {angle : ℤ}
    (h : _try_place_blf geo part stock_poly placed stock_w stock_h step =
      some (x, y, angle)) :
    angle ∈ blfAngles ∧
    blfAccept geo stock_poly placed (blfNormalized geo part angle) (y, x) = true := by
  obtain ⟨a, ha, hfa⟩ := List.exists_of_findSome?_eq_some h
  dsimp only at hfa
  by_cases hdim : stock_w < geo.maxX (blfRotated geo part a) - geo.minX (blfRotated geo part a)
      ∨ stock_h < geo.maxY (blfRotated geo part a) - geo.minY (blfRotated geo part a)
  · rw [if_pos hdim] at hfa
    cases hfa
  · rw [if_neg hdim] at hfa
    rw [Option.map_eq_some'] at hfa
    obtain ⟨yx, hfind, heq⟩ := hfa
    have hx : yx.2 = x := congrArg (fun t => t.1) heq
    have hy : yx.1 = y := congrArg (fun t => t.2.1) heq
    have hangle : a = angle := congrArg (fun t => t.2.2) heq
    have hacc := List.find?_some hfind
    subst hangle
    refine ⟨ha, ?_⟩
    have : yx = (y, x) := by
      cases yx
      simp_all
    rwa [this] at hacc

/-- With translation composing additively, the recorded polygon equals
the accepted grid candidate. -/
lemma position_eq_candidate
    (htr : ∀ (q : P) (a b c d : ℚ),
      geo.translate (geo.translate q a b) c d = geo.translate q (a + c) (b + d))
    (part : P) (x y : ℚ) (angle : ℤ) :
    _position_polygon geo part x y angle =
      geo.translate (blfNormalized geo part angle) x y := by
  unfold _position_polygon blfNormalized
  rw [htr]
  congr 1 <;> ring

/-- The fresh sheet id is not among the dictionary keys. -/
lemma fresh_id_not_mem {stocks : List (ℕ × List P)}
    (h : stocksKeysOk stocks) :
    (stocks.length + 1) ∉ stocks.map Prod.fst := by
  rw [h]
  intro hmem
  rw [List.mem_range'] at hmem
  omega

/-- Looking up a fresh sheet id yields no placed polygons. -/
lemma stocksGet_fresh {stocks : List (ℕ × List P)}
    (h : stocksKeysOk stocks) :
    stocksGet stocks (stocks.length + 1) = [] := by
  unfold stocksGet
  rw [List.find?_eq_none.mpr]
  · rfl
  · intro e he hbeq
    exact fresh_id_not_mem h
      (List.mem_map.mpr ⟨e, he, by simpa using hbeq⟩)

lemma stocks_any_iff {stocks : List (ℕ × List P)} {sid : ℕ} :
    stocks.any (fun e => e.1 == sid) = true ↔ sid ∈ stocks.map Prod.fst := by
  rw [List.any_eq_true]
  simp only [beq_iff_eq, List.mem_map]

lemma stocksAppend_map_id {stocks : List (ℕ × List P)} {sid : ℕ} {poly : P}
    (h : ∀ e ∈ stocks, e.1 ≠ sid) :
    stocks.map (fun e => if e.1 == sid then (e.1, e.2 ++ [poly]) else e) = stocks := by
  calc stocks.map (fun e => if e.1 == sid then (e.1, e.2 ++ [poly]) else e)
      = stocks.map id := by
        apply List.map_congr_left
        intro e he
        rw [if_neg (by simpa using h e he)]
        rfl
    _ = stocks := List.map_id stocks

/-- The keys invariant is preserved by appending to an existing or the
fresh sheet. -/
lemma stocksAppend_keysOk {stocks : List (ℕ × List P)} {sid : ℕ} {poly : P}
    (h : stocksKeysOk stocks)
    (hsid : sid ∈ stocks.map Prod.fst ∨ sid = stocks.length + 1) :
    stocksKeysOk (stocksAppend stocks sid poly) := by
  unfold stocksAppend
  by_cases hany : stocks.any (fun e => e.1 == sid) = true
  · rw [if_pos hany]
    unfold stocksKeysOk
    rw [List.length_map, List.map_map]
    calc stocks.map (Prod.fst ∘ (fun e : ℕ × List P =>
            if e.1 == sid then (e.1, e.2 ++ [poly]) else e))
        = stocks.map Prod.fst := by
          apply List.map_congr_left
          intro e _
          by_cases he : e.1 == sid
          · rw [Function.comp_apply, if_pos he]
          · rw [Function.comp_apply, if_neg he]
      _ = List.range' 1 stocks.length := h
  · rw [if_neg hany]
    rcases hsid with hmem | hfresh
    · exact absurd (stocks_any_iff.mpr hmem) hany
    · subst hfresh
      unfold stocksKeysOk
      rw [List.map_append, h, List.length_append]
      simp only [List.map_cons, List.map_nil, List.length_cons, List.length_nil]
      rw [List.range'_concat]
      simp [Nat.add_comm]

/-- With distinct keys, `find?` returns the unique entry with the key. -/
lemma find?_entry {stocks : List (ℕ × List P)} {e : ℕ × List P} {sid : ℕ}
    (hnodup : (stocks.map Prod.fst).Nodup) (he : e ∈ stocks) (hkey : e.1 = sid) :
    stocks.find? (fun x => x.1 == sid) = some e := by
  induction stocks with
  | nil => cases he
  | cons hd tl ih =>
      rw [List.map_cons, List.nodup_cons] at hnodup
      rcases List.mem_cons.mp he with rfl | htl
      · rw [List.find?_cons_of_pos _ (by simpa using hkey)]
      · have hne : hd.1 ≠ sid := by
          intro hcontra
          apply hnodup.1
          rw [hcontra]
          exact List.mem_map.mpr ⟨e, htl, hkey⟩
        rw [List.find?_cons_of_neg _ (by simpa using hne)]
        exact ih hnodup.2 htl

/-- Appending a polygon that intersects nothing already recorded on its
sheet preserves the pairwise non-overlap invariant. -/
lemma stocksAppend_noOverlap {stocks : List (ℕ × List P)} {sid : ℕ} {final : P}
    (hnodup : (stocks.map Prod.fst).Nodup)
    (hov : stocksNoOverlap geo stocks)
    (hcross : ∀ q ∈ stocksGet stocks sid,
      geo.intersects final q = false ∧ geo.intersects q final = false) :
    stocksNoOverlap geo (stocksAppend stocks sid final) := by
  unfold stocksAppend
  by_cases hany : stocks.any (fun e => e.1 == sid) = true
  · rw [if_pos hany]
    intro e' he'
    rw [List.mem_map] at he'
    obtain ⟨e, he, rfl⟩ := he'
    by_cases hkey : e.1 == sid
    · rw [if_pos hkey]
      rw [List.pairwise_append]
      refine ⟨hov e he, List.pairwise_singleton _ _, ?_⟩
      intro q hq b hb
      rw [List.mem_singleton] at hb
      subst hb
      have hget : stocksGet stocks sid = e.2 := by
        unfold stocksGet
        rw [find?_entry hnodup he (by simpa using hkey)]
        rfl
      have := hcross q (hget ▸ hq)
      exact ⟨this.2, this.1⟩
    · rw [if_neg hkey]
      exact hov e he
  · rw [if_neg hany]
    intro e' he'
    rcases List.mem_append.mp he' with h | h
    · exact hov e' h
    · rw [List.mem_singleton] at h
      subst h
      exact List.pairwise_singleton _ _

lemma mapped_totalPolys {stocks : List (ℕ × List P)} {sid : ℕ} {poly : P}
    (hnodup : (stocks.map Prod.fst).Nodup) (hmem : sid ∈ stocks.map Prod.fst) :
    totalPolys (stocks.map (fun e =>
        if e.1 == sid then (e.1, e.2 ++ [poly]) else e)) =
      totalPolys stocks + 1 := by
  induction stocks with
  | nil => simp at hmem
  | cons hd tl ih =>
      rw [List.map_cons, List.nodup_cons] at hnodup
      unfold totalPolys
      rw [List.map_cons, List.map_cons, List.map_cons, List.sum_cons, List.sum_cons]
      by_cases hhd : hd.1 = sid
      · rw [if_pos (by simpa using hhd)]
        have htl_id : tl.map (fun e : ℕ × List P =>
            if e.1 == sid then (e.1, e.2 ++ [poly]) else e) = tl := by
          apply stocksAppend_map_id
          intro e he hc
          apply hnodup.1
          rw [hhd]
          exact List.mem_map.mpr ⟨e, he, hc⟩
        rw [htl_id]
        simp only [List.length_append, List.length_cons, List.length_nil]
        omega
      · rw [if_neg (by simpa using hhd)]
        have hmemtl : sid ∈ tl.map Prod.fst := by
          rw [List.map_cons] at hmem
          rcases List.mem_cons.mp hmem with h | h
          · exact absurd h.symm hhd
          · exact h
        have := ih hnodup.2 hmemtl
        unfold totalPolys at this
        omega

/-- Appending one polygon grows the recorded-polygon count by one. -/
lemma stocksAppend_totalPolys {stocks : List (ℕ × List P)} {sid : ℕ} {poly : P}
    (hnodup : (stocks.map Prod.fst).Nodup) :
    totalPolys (stocksAppend stocks sid poly) = totalPolys stocks + 1 := by
  unfold stocksAppend
  by_cases hany : stocks.any (fun e => e.1 == sid) = true
  · rw [if_pos hany]
    exact mapped_totalPolys hnodup (stocks_any_iff.mp hany)
  · rw [if_neg hany]
    unfold totalPolys
    rw [List.map_append]
    simp

lemma findSome?_isSome_of_mem {α β : Type} {f : α → Option β} {l : List α}
    {a : α} (ha : a ∈ l) (h : (f a).isSome = true) :
    (l.findSome? f).isSome = true := by
  cases hfs : l.findSome? f with
  | some b => rfl
  | none =>
      rw [List.findSome?_eq_none_iff.mp hfs a ha] at h
      cases h

/-- If a part can be placed among obstacles, it can be placed on an
empty sheet: obstacles only shrink the acceptance set. -/
lemma try_place_empty_of_some {part stock_poly : P} {placed : List P}
    {stock_w stock_h step : ℚ}
    (h : (_try_place_blf geo part stock_poly placed stock_w stock_h step).isSome
      = true) :
    (_try_place_blf geo part stock_poly [] stock_w stock_h step).isSome = true := by
  rw [Option.isSome_iff_exists] at h
  obtain ⟨⟨x, y, angle⟩, hsome⟩ := h
  obtain ⟨a, ha, hfa⟩ := List.exists_of_findSome?_eq_some hsome
  dsimp only at hfa
  by_cases hdim : stock_w < geo.maxX (blfRotated geo part a) -
      geo.minX (blfRotated geo part a)
      ∨ stock_h < geo.maxY (blfRotated geo part a) - geo.minY (blfRotated geo part a)
  · rw [if_pos hdim] at hfa
    cases hfa
  · rw [if_neg hdim] at hfa
    rw [Option.map_eq_some'] at hfa
    obtain ⟨yx, hfind, _⟩ := hfa
    have hacc := List.find?_some hfind
    have hmemgrid := List.mem_of_find?_eq_some hfind
    have hacc0 : blfAccept geo stock_poly [] (blfNormalized geo part a) yx = true := by
      unfold blfAccept at hacc ⊢
      rw [Bool.and_eq_true] at hacc
      simp [hacc.1]
    apply findSome?_isSome_of_mem ha
    dsimp only
    rw [if_neg hdim]
    have hfind0 := List.find?_isSome.mpr ⟨yx, hmemgrid, hacc0⟩
    obtain ⟨yx0, hyx0⟩ := Option.isSome_iff_exists.mp hfind0
    rw [hyx0]
    rfl

variable (template : SheetMaterial) (margin : ℚ)

/-- The per-object behaviour of one `auto_nesting` iteration. -/
lemma nestStep_spec
    (htr : ∀ (q : P) (a b c d : ℚ),
      geo.translate (geo.translate q a b) c d = geo.translate q (a + c) (b + d))
    (hsym : ∀ q q' : P, geo.intersects q q' = geo.intersects q' q)
    (st : NestState P) (obj : BrepObject)
    (hkeys : stocksKeysOk st.stocks) (hov : stocksNoOverlap geo st.stocks) :
    stocksKeysOk (nestStep geo template margin st obj).stocks
    ∧ stocksNoOverlap geo (nestStep geo template margin st obj).stocks
    ∧ (∃ p : PlacementItem,
        (nestStep geo template margin st obj).placements = st.placements ++ [p]
        ∧ p.object_id = obj.object_id ∧ p.rotation ∈ blfAngles)
    ∧ (fitsEmptySheet geo obj template margin →
        totalPolys (nestStep geo template margin st obj).stocks =
          totalPolys st.stocks + 1)
    ∧ (¬ fitsEmptySheet geo obj template margin →
        (nestStep geo template margin st obj).stocks = st.stocks
        ∧ (nestStep geo template margin st obj).placements = st.placements ++
            [⟨obj.object_id, template.material_id, "sheet_1", 0, 0, 0⟩]) := by
  have hnodup : (st.stocks.map Prod.fst).Nodup := by
    rw [hkeys]
    exact List.nodup_range' _ _
  simp only [nestStep]
  cases hfs : ((st.stocks.map Prod.fst) ++ [st.stocks.length + 1]).findSome?
      (fun sid => (_try_place_blf geo (_object_polygon geo obj margin)
        (geo.box 0 0 template.width template.depth) (stocksGet st.stocks sid)
        template.width template.depth 5).map (fun xya => (sid, xya))) with
  | none =>
      have hnofits : ¬ fitsEmptySheet geo obj template margin := by
        intro hfits
        have hfresh_mem : st.stocks.length + 1 ∈
            (st.stocks.map Prod.fst) ++ [st.stocks.length + 1] := by
          simp
        have hnone := List.findSome?_eq_none_iff.mp hfs _ hfresh_mem
        simp only [Option.map_eq_none'] at hnone
        rw [stocksGet_fresh hkeys] at hnone
        unfold fitsEmptySheet at hfits
        rw [hnone] at hfits
        cases hfits
      refine ⟨hkeys, hov,
        ⟨⟨obj.object_id, template.material_id, "sheet_1", 0, 0, 0⟩, rfl, rfl,
          by simp [blfAngles]⟩,
        fun hfits => absurd hfits hnofits,
        fun _ => ⟨rfl, rfl⟩⟩
  | some val =>
      obtain ⟨sid, x, y, angle⟩ := val
      obtain ⟨sid', hsidmem, hf⟩ := List.exists_of_findSome?_eq_some hfs
      rw [Option.map_eq_some'] at hf
      obtain ⟨xya, htp, heq⟩ := hf
      have hsid : sid' = sid := congrArg (fun t => t.1) heq
      have hxya : xya = (x, y, angle) := congrArg (fun t => t.2) heq
      subst hsid
      subst hxya
      have hspec := try_place_blf_spec geo htp
      have hfits : fitsEmptySheet geo obj template margin := by
        unfold fitsEmptySheet
        apply try_place_empty_of_some geo
        rw [htp]
        rfl
      have hsid_range : sid' ∈ st.stocks.map Prod.fst ∨ sid' = st.stocks.length + 1 := by
        rcases List.mem_append.mp hsidmem with h | h
        · exact Or.inl h
        · exact Or.inr (List.mem_singleton.mp h)
      have hcross : ∀ q ∈ stocksGet st.stocks sid',
          geo.intersects (_position_polygon geo (_object_polygon geo obj margin)
            x y angle) q = false
          ∧ geo.intersects q (_position_polygon geo
            (_object_polygon geo obj margin) x y angle) = false := by
        intro q hq
        have hacc := hspec.2
        unfold blfAccept at hacc
        rw [Bool.and_eq_true, List.all_eq_true] at hacc
        have := hacc.2 q hq
        rw [Bool.not_eq_true'] at this
        rw [position_eq_candidate geo htr]
        exact ⟨this, by rw [hsym]; exact this⟩
      refine ⟨stocksAppend_keysOk hkeys hsid_range,
        stocksAppend_noOverlap geo hnodup hov hcross,
        ⟨⟨obj.object_id, template.material_id, sheetName sid', x, y, angle⟩,
          rfl, rfl, hspec.1⟩,
        fun _ => stocksAppend_totalPolys hnodup,
        fun hnf => absurd hfits hnf⟩

/-- The `auto_nesting` fold: invariants, one placement per object with a
valid rotation, a margined polygon recorded per fitting object, and the
origin fallback for unfitting objects. -/
lemma nestRun_fold_spec
    (htr : ∀ (q : P) (a b c d : ℚ),
      geo.translate (geo.translate q a b) c d = geo.translate q (a + c) (b + d))
    (hsym : ∀ q q' : P, geo.intersects q q' = geo.intersects q' q) :
    ∀ (objs : List BrepObject) (st : NestState P),
      stocksKeysOk st.stocks → stocksNoOverlap geo st.stocks →
      (∃ rest, (objs.foldl (nestStep geo template margin) st).placements =
          st.placements ++ rest)
      ∧ stocksKeysOk (objs.foldl (nestStep geo template margin) st).stocks
      ∧ stocksNoOverlap geo (objs.foldl (nestStep geo template margin) st).stocks
      ∧ (objs.foldl (nestStep geo template margin) st).placements.map
          (fun p => p.object_id) =
          st.placements.map (fun p => p.object_id) ++
            objs.map (fun o => o.object_id)
      ∧ (∀ p ∈ (objs.foldl (nestStep geo template margin) st).placements,
          p ∈ st.placements ∨ p.rotation ∈ blfAngles)
      ∧ ((∀ o ∈ objs, fitsEmptySheet geo o template margin) →
          totalPolys (objs.foldl (nestStep geo template margin) st).stocks =
            totalPolys st.stocks + objs.length)
      ∧ (∀ o ∈ objs, ¬ fitsEmptySheet geo o template margin →
          ∃ p ∈ (objs.foldl (nestStep geo template margin) st).placements,
            p.object_id = o.object_id ∧ p.sheet_id = "sheet_1"
            ∧ p.x_offset = 0 ∧ p.y_offset = 0 ∧ p.rotation = 0) := by
  intro objs
  induction objs with
  | nil =>
      intro st hkeys hov
      exact ⟨⟨[], by simp⟩, hkeys, hov, by simp, fun p hp => Or.inl hp,
        fun _ => by simp [List.foldl_nil], fun o ho => absurd ho (by simp)⟩
  | cons o objs ih =>
      intro st hkeys hov
      rw [List.foldl_cons]
      obtain ⟨hkeys', hov', ⟨p, hpl, hpid, hprot⟩, hcount1, hfallback1⟩ :=
        nestStep_spec geo template margin htr hsym st o hkeys hov
      obtain ⟨⟨rest, hrest⟩, hkeys'', hov'', hids, hrot, hcount, hfall⟩ :=
        ih (nestStep geo template margin st o) hkeys' hov'
      refine ⟨⟨[p] ++ rest, by rw [hrest, hpl, List.append_assoc]⟩,
        hkeys'', hov'', ?_, ?_, ?_, ?_⟩
      · rw [hids, hpl, List.map_append, List.map_cons, List.map_cons, hpid]
        simp
      · intro q hq
        rcases hrot q hq with h | h
        · rw [hpl] at h
          rcases List.mem_append.mp h with h' | h'
          · exact Or.inl h'
          · rw [List.mem_singleton] at h'
            subst h'
            exact Or.inr hprot
        · exact Or.inr h
      · intro hfits
        rw [hcount (fun o' ho' => hfits o' (by simp [ho'])),
          hcount1 (hfits o (by simp))]
        simp only [List.length_cons]
        omega
      · intro o' ho' hnf
        rcases List.mem_cons.mp ho' with rfl | ho''
        · obtain ⟨_, hplf⟩ := hfallback1 hnf
          refine ⟨⟨o'.object_id, template.material_id, "sheet_1", 0, 0, 0⟩,
            ?_, rfl, rfl, rfl, rfl, rfl⟩
          rw [hrest, hplf]
          simp
        · exact hfall o' ho'' hnf

/-- C6: `auto_nesting` returns exactly one placement per part, covering
the input object ids; placements carry only the eight legal rotations
(so constructing them never raises); when every part individually fits
the stock sheet, every part's margin-buffered polygon is recorded on a
sheet and no two polygons on the same sheet intersect; a part fitting no
sheet is placed at `(0,0)` with rotation `0` on `sheet_1` as a
fallback. -/
theorem auto_nesting_complete {P : Type} (geo : NestGeom P)
    (objects : List BrepObject) (sheet : SheetSettings)
    (tool_diameter clearance : ℚ) (template : SheetMaterial)
    (htr : ∀ (q : P) (a b c d : ℚ),
      geo.translate (geo.translate q a b) c d = geo.translate q (a + c) (b + d))
    (hsym : ∀ q q' : P, geo.intersects q q' = geo.intersects q' q)
    (hmat : sheet.materials.head? = some template)
    (hobj : objects ≠ []) :
    (auto_nesting geo objects sheet tool_diameter clearance).length = objects.length
    ∧ List.Perm ((auto_nesting geo objects sheet tool_diameter clearance).map
        (fun p => p.object_id)) (objects.map (fun o => o.object_id))
    ∧ (∀ p ∈ auto_nesting geo objects sheet tool_diameter clearance,
        p.rotation ∈ blfAngles)
    ∧ ((∀ o ∈ objects, fitsEmptySheet geo o template (tool_diameter / 2 + clearance)) →
        totalPolys (nestRun geo template (tool_diameter / 2 + clearance)
          objects).stocks = objects.length
        ∧ stocksNoOverlap geo (nestRun geo template (tool_diameter / 2 + clearance)
            objects).stocks)
    ∧ (∀ o ∈ objects, ¬ fitsEmptySheet geo o template (tool_diameter / 2 + clearance) →
        ∃ p ∈ auto_nesting geo objects sheet tool_diameter clearance,
          p.object_id = o.object_id ∧ p.sheet_id = "sheet_1"
          ∧ p.x_offset = 0 ∧ p.y_offset = 0 ∧ p.rotation = 0) := by
  have hmargin : auto_nesting geo objects sheet tool_diameter clearance =
      (nestRun geo template (tool_diameter / 2 + clearance) objects).placements := by
    unfold auto_nesting
    rw [hmat]
    show (if objects.isEmpty = true then [] else
      (nestRun geo template (tool_diameter / 2 + clearance) objects).placements) = _
    rw [if_neg (by simpa [List.isEmpty_iff] using hobj)]
  obtain ⟨_, hkeys, hov, hids, hrot, hcount, hfall⟩ :=
    nestRun_fold_spec geo template (tool_diameter / 2 + clearance) htr hsym
      (List.insertionSort areaGe objects) ⟨[], []⟩ rfl (by intro e he; cases he)
  have hsortmem : ∀ o : BrepObject,
      o ∈ List.insertionSort areaGe objects ↔ o ∈ objects := fun o =>
    (List.perm_insertionSort areaGe objects).mem_iff
  rw [show (List.insertionSort areaGe objects).foldl
      (nestStep geo template (tool_diameter / 2 + clearance)) ⟨[], []⟩ =
      nestRun geo template (tool_diameter / 2 + clearance) objects from rfl]
      at hids hrot hcount hfall
  simp only [List.map_nil, List.nil_append] at hids
  refine ⟨?_, ?_, ?_, ?_, ?_⟩
  · rw [hmargin]
    have := congrArg List.length hids
    simpa using this
  · rw [hmargin, hids]
    exact (List.perm_insertionSort areaGe objects).map (fun o => o.object_id)
  · intro p hp
    rw [hmargin] at hp
    rcases hrot p hp with h | h
    · cases h
    · exact h
  · intro hfits
    refine ⟨?_, hov⟩
    rw [hcount (fun o ho => hfits o ((hsortmem o).mp ho))]
    simp [totalPolys, List.length_insertionSort]
  · intro o ho hnf
    rw [hmargin]
    exact hfall o ((hsortmem o).mpr ho) hnf

/-- The trivial polygon model on `Unit`: every geometric operation is
constant, nothing intersects, everything is contained.  It satisfies the
two geometry-library hypotheses definitionally. -/
def unitGeom : NestGeom Unit where
  fromOutline := fun _ => ()
  box := fun _ _ _ _ => ()
  buffer := fun _ _ => ()
  rotate := fun _ _ => ()
  translate := fun _ _ _ => ()
  minX := fun _ => 0
  minY := fun _ => 0
  maxX := fun _ => 0
  maxY := fun _ => 0
  contains := fun _ _ => true
  intersects := fun _ _ => false

/-- Witness for C6: one 100×50 part on a 600×400 sheet, with the trivial
one-point polygon model discharging the geometry-library axioms. -/
theorem auto_nesting_complete_witness :
    ((⟨[⟨"mat_001", "", 600, 400, 18, 0, 0⟩]⟩ :
        SheetSettings).materials.head? = some ⟨"mat_001", "", 600, 400, 18, 0, 0⟩)
    ∧ ([(⟨"obj_001", ⟨100, 50, 10⟩, []⟩ : BrepObject)] ≠ [])
    ∧ ((auto_nesting unitGeom [⟨"obj_001", ⟨100, 50, 10⟩, []⟩]
        ⟨[⟨"mat_001", "", 600, 400, 18, 0, 0⟩]⟩ (127 / 20) 5).length =
          [(⟨"obj_001", ⟨100, 50, 10⟩, []⟩ : BrepObject)].length
      ∧ List.Perm ((auto_nesting unitGeom [⟨"obj_001", ⟨100, 50, 10⟩, []⟩]
          ⟨[⟨"mat_001", "", 600, 400, 18, 0, 0⟩]⟩ (127 / 20) 5).map
            (fun p => p.object_id))
          ([(⟨"obj_001", ⟨100, 50, 10⟩, []⟩ : BrepObject)].map
            (fun o => o.object_id))
      ∧ (∀ p ∈ auto_nesting unitGeom [⟨"obj_001", ⟨100, 50, 10⟩, []⟩]
          ⟨[⟨"mat_001", "", 600, 400, 18, 0, 0⟩]⟩ (127 / 20) 5,
          p.rotation ∈ blfAngles)
      ∧ ((∀ o ∈ [(⟨"obj_001", ⟨100, 50, 10⟩, []⟩ : BrepObject)],
          fitsEmptySheet unitGeom o ⟨"mat_001", "", 600, 400, 18, 0, 0⟩
            ((127 / 20) / 2 + 5)) →
          totalPolys (nestRun unitGeom ⟨"mat_001", "", 600, 400, 18, 0, 0⟩
            ((127 / 20) / 2 + 5) [⟨"obj_001", ⟨100, 50, 10⟩, []⟩]).stocks =
              [(⟨"obj_001", ⟨100, 50, 10⟩, []⟩ : BrepObject)].length
          ∧ stocksNoOverlap unitGeom
              (nestRun unitGeom ⟨"mat_001", "", 600, 400, 18, 0, 0⟩
                ((127 / 20) / 2 + 5) [⟨"obj_001", ⟨100, 50, 10⟩, []⟩]).stocks)
      ∧ (∀ o ∈ [(⟨"obj_001", ⟨100, 50, 10⟩, []⟩ : BrepObject)],
          ¬ fitsEmptySheet unitGeom o ⟨"mat_001", "", 600, 400, 18, 0, 0⟩
            ((127 / 20) / 2 + 5) →
          ∃ p ∈ auto_nesting unitGeom [⟨"obj_001", ⟨100, 50, 10⟩, []⟩]
            ⟨[⟨"mat_001", "", 600, 400, 18, 0, 0⟩]⟩ (127 / 20) 5,
            p.object_id = o.object_id ∧ p.sheet_id = "sheet_1"
            ∧ p.x_offset = 0 ∧ p.y_offset = 0 ∧ p.rotation = 0)) :=
  ⟨rfl, List.cons_ne_nil _ _,
    auto_nesting_complete unitGeom [⟨"obj_001", ⟨100, 50, 10⟩, []⟩]
      ⟨[⟨"mat_001", "", 600, 400, 18, 0, 0⟩]⟩ (127 / 20) 5
      ⟨"mat_001", "", 600, 400, 18, 0, 0⟩
      (fun _ _ _ _ _ => rfl) (fun _ _ => rfl) rfl (List.cons_ne_nil _ _)⟩

end NestingLemmas

end PathDesigner
